import Mathlib

/-!
# Verification of the paginated ranked image query engine

This development embeds the Postgres function
`portfolio.get_all_images_with_person_matches`
(`backend/sql/get_image_with_person_matches.sql`, lines 92-286), its legacy
unpaginated variant (lines 354-412), and the backend caller protocol around it
(cursor decode/encode, page trimming, row grouping) as executable Lean
functions, and proves the spec's testable properties about them.

Modelling conventions:
* UUIDs are modelled as `Nat`, `TIMESTAMPTZ` as `Int`, SQL `FLOAT` as `ℚ`.
* The pgvector cosine-distance operator `<=>` is external to the repository;
  it is modelled as an abstract distance table `Db.dist` carried by the
  database state (the SQL only ever compares and minimises distances).
* Nullable SQL columns are `Option` fields; SQL three-valued logic is embedded
  by making every comparison with a NULL operand evaluate to `false` at the
  top of a `WHERE` clause, exactly as a non-TRUE condition drops the row.
* `ORDER BY` is embedded as a stable insertion sort by the quoted sort keys.
  Where the SQL leaves an order underdetermined (ties in `ORDER BY distance
  LIMIT p_top_n`; the relative order of the denormalized face/match rows of
  one image), the embedding fixes the input-list order; these spots are noted.
-/

/-! ## Generic list utilities: stable sort and substring matching -/

/-- Insert `a` into `l` in front of the first element `b` with `le a b` false…
keeping earlier elements first: a stable insertion step. -/
def insertSorted {α : Type} (le : α → α → Bool) (a : α) : List α → List α
  | [] => [a]
  | b :: l => if le a b then a :: b :: l else b :: insertSorted le a l

/-- Stable insertion sort by a boolean "less or equal" test; the executable
embedding of SQL `ORDER BY`. -/
def sortBy {α : Type} (le : α → α → Bool) : List α → List α
  | [] => []
  | a :: l => insertSorted le a (sortBy le l)

/-- Does the character list start with the given pattern? -/
def charsStart : List Char → List Char → Bool
  | _, [] => true
  | [], _ :: _ => false
  | c :: cs, p :: ps => c == p && charsStart cs ps

/-- Does the character list contain the pattern as a contiguous run? -/
def charsContain : List Char → List Char → Bool
  | [], pat => pat.isEmpty
  | c :: cs, pat => charsStart (c :: cs) pat || charsContain cs pat

/-- Embedding of SQL `hay ILIKE '%' || pat || '%'`: case-insensitive substring
test (wildcard characters inside `pat` are not modelled; the spec describes
the filter as a plain substring match). -/
def ilike (hay pat : String) : Bool :=
  charsContain (hay.data.map Char.toLower) (pat.data.map Char.toLower)

/-- Minimum of a list of rationals, `none` on the empty list: embedding of SQL
`MIN(...)` over a (possibly empty) group. -/
def minQ? : List ℚ → Option ℚ
  | [] => none
  | x :: xs =>
    match minQ? xs with
    | none => some x
    | some m => some (min x m)

/-! ## Data model (`portfolio.image`, `portfolio.detected_face`,
`portfolio.person`) -/

/-- A row of `portfolio.image`. -/
structure Image where
  id : Nat
  created_at : Int
  filename : Option String
  source_url : Option String
  width : Option Int
  height : Option Int
deriving Repr, DecidableEq

/-- A row of `portfolio.detected_face`.  `encoding` is an opaque handle into
the distance table `Db.dist`. -/
structure DetectedFace where
  id : Nat
  image_id : Option Nat
  encoding : Nat
  person_id : Option Nat
  location_top : Int
  location_right : Int
  location_bottom : Int
  location_left : Int
deriving Repr, DecidableEq

/-- A row of `portfolio.person`. -/
structure Person where
  id : Nat
  name : String
deriving Repr, DecidableEq

/-- A database snapshot.  `dist` is the pgvector cosine-distance operator
`<=>`, external to the repository and therefore abstract here. -/
structure Db where
  images : List Image
  faces : List DetectedFace
  persons : List Person
  dist : Nat → Nat → ℚ

/-! ## Parameters of `get_all_images_with_person_matches` (paginated) -/

/-- The parameter record of the paginated RPC, mirroring the SQL argument list
(lines 92-102).  `p_top_n` is taken as a `Nat`; a negative `p_top_n` would be
a Postgres `LIMIT` error and is never exercised by the spec. -/
structure QueryParams where
  threshold : ℚ := mkRat 1 2
  top_n : Nat := 3
  limit : Int := 40
  cursor_created_at : Option Int := none
  cursor_id : Option Nat := none
  sort_person_id : Option Nat := none
  cursor_is_tagged : Option Int := none
  cursor_min_distance : Option ℚ := none
  search : Option String := none

/-! ## The helper CTEs (SQL lines 131-168) -/

/-- CTE `ref_faces` (lines 131-137): reference encodings of the sort person. -/
def ref_faces (db : Db) (pid : Nat) : List Nat :=
  (db.faces.filter (fun f => f.person_id == some pid)).map (·.encoding)

/-- CTE `tagged_image_ids` (lines 139-145): `SELECT DISTINCT image_id FROM
detected_face WHERE person_id = p_sort_person_id`. -/
def tagged_image_ids (db : Db) (pid : Nat) : List (Option Nat) :=
  ((db.faces.filter (fun f => f.person_id == some pid)).map (·.image_id)).dedup

/-- CTE `image_min_distances` (lines 147-168): per image (with non-null
`image_id`), the minimum distance from any of its faces to any reference
encoding, kept only when that minimum is below the threshold (`HAVING`). -/
def image_min_distances (db : Db) (pid : Nat) (threshold : ℚ) :
    List (Nat × ℚ) :=
  ((db.faces.filterMap (·.image_id)).dedup).filterMap (fun iid =>
    match minQ? (((db.faces.filter (fun f => f.image_id == some iid)).map
        (·.encoding)).flatMap (fun e =>
          (ref_faces db pid).map (fun r => db.dist e r))) with
    | none => none
    | some m => if m < threshold then some (iid, m) else none)

/-! ## CTE `base_images` (SQL lines 172-201) -/

/-- One row of the `base_images` CTE. -/
structure BaseRow where
  id : Nat
  created_at : Int
  is_tagged : Option Int
  min_distance : Option ℚ
deriving Repr, DecidableEq

/-- The search condition of `base_images` (lines 188-192): `p_search IS NULL
OR source_url ILIKE ... OR filename ILIKE ...`, with NULL operands falsy. -/
def searchCond (q : QueryParams) (i : Image) : Bool :=
  match q.search with
  | none => true
  | some s =>
    (match i.source_url with
     | some u => ilike u s
     | none => false) ||
    (match i.filename with
     | some fn => ilike fn s
     | none => false)

/-- The default-sort cursor condition of `base_images` (lines 195-200). -/
def defaultCursorCond (q : QueryParams) (i : Image) : Bool :=
  q.sort_person_id.isSome ||
  q.cursor_created_at.isNone ||
  (match q.cursor_created_at with
   | some ca => decide (i.created_at < ca)
   | none => false) ||
  (match q.cursor_created_at, q.cursor_id with
   | some ca, some cid => decide (i.created_at = ca) && decide (cid < i.id)
   | _, _ => false)

/-- The `is_tagged` column of `base_images` (lines 178-180): in person mode,
`1` when the image is in `tagged_image_ids`, else `0`; NULL otherwise. -/
def isTaggedCol (db : Db) (q : QueryParams) (i : Image) : Option Int :=
  match q.sort_person_id with
  | some pid =>
    some (if (tagged_image_ids db pid).contains (some i.id) then 1 else 0)
  | none => none

/-- The `min_distance` column of `base_images` (lines 181-183): in person
mode, the joined `image_min_distances` value when present; NULL otherwise. -/
def minDistanceCol (db : Db) (q : QueryParams) (i : Image) : Option ℚ :=
  match q.sort_person_id with
  | some pid =>
    match (image_min_distances db pid q.threshold).find?
        (fun pr => pr.1 == i.id) with
    | some pr => some pr.2
    | none => none
  | none => none

/-- CTE `base_images` (lines 172-201): eligible images (non-null
`source_url`, search filter, default-sort cursor filter) with the person-sort
metrics joined on. -/
def base_images (db : Db) (q : QueryParams) : List BaseRow :=
  (db.images.filter (fun i =>
      i.source_url.isSome && searchCond q i && defaultCursorCond q i)).map
    (fun i =>
      { id := i.id
        created_at := i.created_at
        is_tagged := isTaggedCol db q i
        min_distance := minDistanceCol db q i })

/-! ## CTE `paginated` (SQL lines 203-242) -/

/-- The person-sort cursor condition of `paginated` (lines 207-232), embedded
branch by branch with NULL operands falsy. -/
def personCursorCond (q : QueryParams) (r : BaseRow) : Bool :=
  q.sort_person_id.isNone ||
  q.cursor_id.isNone ||
  (match r.is_tagged, q.cursor_is_tagged with
   | some t, some ct => decide (t < ct)
   | _, _ => false) ||
  ((match r.is_tagged, q.cursor_is_tagged with
    | some t, some ct => decide (t = ct)
    | _, _ => false) &&
   ((match q.cursor_min_distance, r.min_distance with
     | some cm, some m => decide (cm < m)
     | _, _ => false) ||
    (q.cursor_min_distance.isSome && r.min_distance.isNone) ||
    (q.cursor_min_distance.isNone && r.min_distance.isNone &&
      (match q.cursor_id with
       | some cid => decide (cid < r.id)
       | none => false)) ||
    (match r.min_distance, q.cursor_min_distance with
     | some m, some cm =>
       decide (m = cm) &&
       (match q.cursor_id with
        | some cid => decide (cid < r.id)
        | none => false)
     | _, _ => false)))

/-- `DESC NULLS LAST` strict comparison on an optional sort key. -/
def ltOptDesc : Option Int → Option Int → Bool
  | some x, some y => decide (y < x)
  | some _, none => true
  | none, _ => false

/-- `ASC NULLS LAST` strict comparison on an optional sort key. -/
def ltOptAsc : Option ℚ → Option ℚ → Bool
  | some x, some y => decide (x < y)
  | some _, none => true
  | none, _ => false

/-- "Sorts strictly before" for the `ORDER BY` of `paginated` (lines
233-240): the person keys (`is_tagged` DESC NULLS LAST, `min_distance` ASC
NULLS LAST, NULL when person sort is off), then the default key (`created_at`
DESC NULLS LAST, NULL when person sort is on), then `id` ASC. -/
def rowLt (personMode : Bool) (a b : BaseRow) : Bool :=
  let a1 : Option Int := if personMode then a.is_tagged else none
  let b1 : Option Int := if personMode then b.is_tagged else none
  let a2 : Option ℚ := if personMode then a.min_distance else none
  let b2 : Option ℚ := if personMode then b.min_distance else none
  let a3 : Option Int := if personMode then none else some a.created_at
  let b3 : Option Int := if personMode then none else some b.created_at
  ltOptDesc a1 b1 ||
    (a1 == b1 && (ltOptAsc a2 b2 ||
      (a2 == b2 && (ltOptDesc a3 b3 ||
        (a3 == b3 && decide (a.id < b.id))))))

/-- The non-strict version of `rowLt`, used as the sort test. -/
def rowLe (personMode : Bool) (a b : BaseRow) : Bool :=
  !(rowLt personMode b a)

/-- CTE `paginated` (lines 203-242): apply the person-sort cursor, order by
the active sort keys, and keep `p_limit + 1` rows.  `none` models the
Postgres error raised by a negative `LIMIT` (i.e. `p_limit + 1 < 0`). -/
def paginated (db : Db) (q : QueryParams) : Option (List BaseRow) :=
  if q.limit + 1 < 0 then none
  else some
    ((sortBy (rowLe q.sort_person_id.isSome)
        ((base_images db q).filter (personCursorCond q))).take
      (q.limit + 1).toNat)

/-! ## The final output join (SQL lines 246-285) -/

/-- One row of the paginated RPC's `RETURNS TABLE` (lines 103-122). -/
structure OutRow where
  image_id : Nat
  filename : Option String
  source_url : Option String
  width : Option Int
  height : Option Int
  created_at : Int
  sort_is_tagged : Option Int
  sort_min_distance : Option ℚ
  face_id : Option Nat
  face_encoding : Option Nat
  location_top : Option Int
  location_right : Option Int
  location_bottom : Option Int
  location_left : Option Int
  assigned_person_id : Option Nat
  matched_person_id : Option Nat
  matched_person_name : Option String
  match_distance : Option ℚ
deriving Repr, DecidableEq

/-- One row of the `matches` lateral subquery (lines 268-280). -/
structure MatchRow where
  person_id : Nat
  person_name : String
  distance : ℚ
deriving Repr, DecidableEq

/-- Per person group of the lateral subquery: the minimum distance from the
given encoding to that person's assigned reference faces, over the pairs
below the threshold; `none` when no pair qualifies (the group is empty). -/
def personGroupDist (db : Db) (threshold : ℚ) (enc : Nat) (p : Person) :
    Option ℚ :=
  minQ? ((db.faces.filter (fun ref =>
      ref.person_id == some p.id && decide (db.dist enc ref.encoding < threshold))).map
    (fun ref => db.dist enc ref.encoding))

/-- The `matches` lateral subquery (lines 268-280): per person, the minimum
qualifying distance, ordered by ascending distance, keeping `p_top_n` rows.
SQL leaves the order of equal distances unspecified; the embedding keeps the
person-table order (stable sort). -/
def matchesFor (db : Db) (threshold : ℚ) (top_n : Nat) (enc : Nat) :
    List MatchRow :=
  (sortBy (fun m₁ m₂ => decide (m₁.distance ≤ m₂.distance))
    (db.persons.filterMap (fun p =>
      (personGroupDist db threshold enc p).map
        (fun d => ⟨p.id, p.name, d⟩)))).take top_n

/-- The output rows contributed by one detected face of a paginated image:
the `LEFT JOIN LATERAL ... ON true` keeps the face with NULL match fields
when the lateral subquery is empty. -/
def rowsForFace (db : Db) (threshold : ℚ) (top_n : Nat) (p : BaseRow)
    (i : Image) (f : DetectedFace) : List OutRow :=
  let base : OutRow :=
    { image_id := p.id
      filename := i.filename
      source_url := i.source_url
      width := i.width
      height := i.height
      created_at := p.created_at
      sort_is_tagged := p.is_tagged
      sort_min_distance := p.min_distance
      face_id := some f.id
      face_encoding := some f.encoding
      location_top := some f.location_top
      location_right := some f.location_right
      location_bottom := some f.location_bottom
      location_left := some f.location_left
      assigned_person_id := f.person_id
      matched_person_id := none
      matched_person_name := none
      match_distance := none }
  match matchesFor db threshold top_n f.encoding with
  | [] => [base]
  | ms => ms.map (fun m =>
      { base with
        matched_person_id := some m.person_id
        matched_person_name := some m.person_name
        match_distance := some m.distance })

/-- The output rows contributed by one paginated image joined back to
`portfolio.image` (lines 266-267): the `LEFT JOIN detected_face` keeps the
image as a single row with NULL face fields when it has no faces. -/
def rowsForImage (db : Db) (threshold : ℚ) (top_n : Nat) (p : BaseRow)
    (i : Image) : List OutRow :=
  match db.faces.filter (fun f => f.image_id == some i.id) with
  | [] =>
    [{ image_id := p.id
       filename := i.filename
       source_url := i.source_url
       width := i.width
       height := i.height
       created_at := p.created_at
       sort_is_tagged := p.is_tagged
       sort_min_distance := p.min_distance
       face_id := none
       face_encoding := none
       location_top := none
       location_right := none
       location_bottom := none
       location_left := none
       assigned_person_id := none
       matched_person_id := none
       matched_person_name := none
       match_distance := none }]
  | fs => fs.flatMap (rowsForFace db threshold top_n p i)

/-- `portfolio.get_all_images_with_person_matches` (paginated, lines 92-286):
the final `SELECT` joins each paginated image to its metadata, faces and
matches.  The final `ORDER BY` (lines 281-285) repeats the pagination keys,
so the rows of one image stay contiguous in pagination order; the relative
order of one image's denormalized rows is unspecified in SQL and fixed here
as face-table order.  `none` models a Postgres error (negative `LIMIT`). -/
def get_all_images_with_person_matches (db : Db) (q : QueryParams) :
    Option (List OutRow) :=
  (paginated db q).map (fun pg =>
    pg.flatMap (fun p =>
      (db.images.filter (fun i => i.id == p.id)).flatMap
        (rowsForImage db q.threshold q.top_n p)))

/-! ## The legacy unpaginated function (SQL lines 354-412) -/

/-- One row of the legacy RPC's `RETURNS TABLE` (lines 358-374); also the
common projection of the paginated output (dropping `created_at` and the two
sort metric columns) used to compare the two functions. -/
structure LegacyRow where
  image_id : Nat
  filename : Option String
  source_url : Option String
  width : Option Int
  height : Option Int
  face_id : Option Nat
  face_encoding : Option Nat
  location_top : Option Int
  location_right : Option Int
  location_bottom : Option Int
  location_left : Option Int
  assigned_person_id : Option Nat
  matched_person_id : Option Nat
  matched_person_name : Option String
  match_distance : Option ℚ
deriving Repr, DecidableEq

/-- Projection of a paginated output row onto the legacy column set. -/
def OutRow.toLegacy (r : OutRow) : LegacyRow :=
  { image_id := r.image_id
    filename := r.filename
    source_url := r.source_url
    width := r.width
    height := r.height
    face_id := r.face_id
    face_encoding := r.face_encoding
    location_top := r.location_top
    location_right := r.location_right
    location_bottom := r.location_bottom
    location_left := r.location_left
    assigned_person_id := r.assigned_person_id
    matched_person_id := r.matched_person_id
    matched_person_name := r.matched_person_name
    match_distance := r.match_distance }

/-- The legacy rows contributed by one face (same lateral join, lines
396-410). -/
def legacyRowsForFace (db : Db) (threshold : ℚ) (top_n : Nat) (i : Image)
    (f : DetectedFace) : List LegacyRow :=
  let base : LegacyRow :=
    { image_id := i.id
      filename := i.filename
      source_url := i.source_url
      width := i.width
      height := i.height
      face_id := some f.id
      face_encoding := some f.encoding
      location_top := some f.location_top
      location_right := some f.location_right
      location_bottom := some f.location_bottom
      location_left := some f.location_left
      assigned_person_id := f.person_id
      matched_person_id := none
      matched_person_name := none
      match_distance := none }
  match matchesFor db threshold top_n f.encoding with
  | [] => [base]
  | ms => ms.map (fun m =>
      { base with
        matched_person_id := some m.person_id
        matched_person_name := some m.person_name
        match_distance := some m.distance })

/-- The legacy rows contributed by one image (`LEFT JOIN detected_face`,
line 395). -/
def legacyRowsForImage (db : Db) (threshold : ℚ) (top_n : Nat) (i : Image) :
    List LegacyRow :=
  match db.faces.filter (fun f => f.image_id == some i.id) with
  | [] =>
    [{ image_id := i.id
       filename := i.filename
       source_url := i.source_url
       width := i.width
       height := i.height
       face_id := none
       face_encoding := none
       location_top := none
       location_right := none
       location_bottom := none
       location_left := none
       assigned_person_id := none
       matched_person_id := none
       matched_person_name := none
       match_distance := none }]
  | fs => fs.flatMap (legacyRowsForFace db threshold top_n i)

/-- `portfolio.get_all_images_with_person_matches` (legacy unpaginated,
lines 354-412): every image (no `source_url` filter), joined to faces and
matches, ordered by image id. -/
def get_all_images_with_person_matches_legacy (db : Db) (threshold : ℚ)
    (top_n : Nat) : List LegacyRow :=
  (sortBy (fun a b => decide (a.id ≤ b.id)) db.images).flatMap
    (legacyRowsForImage db threshold top_n)

/-! ## The backend caller protocol

The Python backend (`backend/main.py`, `backend/services.py`,
`backend/database.py`, `backend/models.py`) that decodes the cursor,
validates the request, calls the RPC, trims the page, builds the next cursor
and regroups the denormalized rows is part of this repository but not under
`src/`; only the plan documents and the RPC's own header comment describe it.
The definitions in this section are therefore modelled from the spec, as
their doc comments state. -/

/-- Modelled from the spec: the cursor wire value (§6, §9 of the spec;
`backend/database.py` cursor JSON is not under `src/`).  A tagged variant
with exactly the sort-key field set of each mode: `{created_at, id}` for
newest mode, `{is_tagged, min_distance?, id}` for person mode. -/
inductive Cursor where
  | newest (created_at : Int) (id : Nat)
  | person (is_tagged : Int) (min_distance : Option ℚ) (id : Nat)
deriving Repr, DecidableEq

/-- Modelled from the spec: the error taxonomy of §7 (the HTTP layer is not
under `src/`): invalid input versus backing-store failure. -/
inductive ApiError where
  | invalidInput (msg : String)
  | storage (msg : String)
deriving Repr, DecidableEq

/-- Modelled from the spec: a face entry of the response shape (§6). -/
structure FaceEntry where
  id : Nat
  face_encoding : Option Nat
  location_top : Option Int
  location_right : Option Int
  location_bottom : Option Int
  location_left : Option Int
  assigned_person_id : Option Nat
  match_list : List MatchRow  -- wire name `matches` (a Lean keyword)
deriving Repr, DecidableEq

/-- Modelled from the spec: an image entry of the response shape (§6). -/
structure ImageEntry where
  id : Nat
  filename : Option String
  source_url : Option String
  width : Option Int
  height : Option Int
  created_at : Int
  faces : List FaceEntry
deriving Repr, DecidableEq

/-- Modelled from the spec: the page response shape (§6). -/
structure PageResponse where
  images : List ImageEntry
  next_cursor : Option Cursor
deriving Repr, DecidableEq

/-- Modelled from the spec: the request shape (§6), with the engine defaults
(`limit` 40, threshold 0.5, top-N 3). -/
structure Request where
  limit : Int := 40
  cursor : Option Cursor := none
  sort_person_id : Option Nat := none
  search : Option String := none
  threshold : ℚ := mkRat 1 2
  top_n : Nat := 3

/-- Modelled from the spec: §6 "The core must reject a cursor whose field set
does not match the requested sort mode" — the structural check. -/
def cursorMatchesMode : Option Cursor → Option Nat → Bool
  | none, _ => true
  | some (.newest _ _), none => true
  | some (.person _ _ _), some _ => true
  | some (.newest _ _), some _ => false
  | some (.person _ _ _), none => false

/-- Modelled from the spec: unpacking the decoded cursor into the individual
RPC parameters (`backend/database.py` is not under `src/`; the field-to-
parameter correspondence follows the RPC header comment, SQL lines 74-76). -/
def toParams (req : Request) : QueryParams :=
  { threshold := req.threshold
    top_n := req.top_n
    limit := req.limit
    cursor_created_at :=
      match req.cursor with
      | some (.newest ca _) => some ca
      | _ => none
    cursor_id :=
      match req.cursor with
      | some (.newest _ cid) => some cid
      | some (.person _ _ cid) => some cid
      | none => none
    sort_person_id := req.sort_person_id
    cursor_is_tagged :=
      match req.cursor with
      | some (.person t _ _) => some t
      | _ => none
    cursor_min_distance :=
      match req.cursor with
      | some (.person _ md _) => md
      | _ => none
    search := req.search }

/-- Modelled from the spec: serializing a next cursor from an output row's
sort-key field values "using the field names appropriate to the active mode"
(§4.1 step 5; SQL lines 74-76).  In person mode the row's `sort_is_tagged`
is always populated; `getD 0` only discharges the type-level option. -/
def cursorFromRow (sortPersonId : Option Nat) (r : OutRow) : Cursor :=
  match sortPersonId with
  | none => .newest r.created_at r.image_id
  | some _ => .person (r.sort_is_tagged.getD 0) r.sort_min_distance r.image_id

/-- Append one denormalized row's match columns to a face entry. -/
def addMatchToFace (e : FaceEntry) (r : OutRow) : FaceEntry :=
  match r.matched_person_id, r.matched_person_name, r.match_distance with
  | some pid, some pname, some d => { e with match_list := e.match_list ++ [⟨pid, pname, d⟩] }
  | _, _, _ => e

/-- A fresh face entry from a row's face columns (`none` when the row has
NULL face columns, i.e. the image has no faces). -/
def faceEntryOfRow (r : OutRow) : Option FaceEntry :=
  r.face_id.map (fun fid =>
    addMatchToFace
      { id := fid
        face_encoding := r.face_encoding
        location_top := r.location_top
        location_right := r.location_right
        location_bottom := r.location_bottom
        location_left := r.location_left
        assigned_person_id := r.assigned_person_id
        match_list := [] } r)

/-- Fold one row into an image entry: append the match to the row's face
entry if that face was already seen, else open a new face entry. -/
def addRowToEntry (e : ImageEntry) (r : OutRow) : ImageEntry :=
  if (e.faces.map (·.id)).contains (r.face_id.getD 0) ∧ r.face_id.isSome then
    { e with faces := e.faces.map (fun fe =>
        if some fe.id == r.face_id then addMatchToFace fe r else fe) }
  else
    match faceEntryOfRow r with
    | some fe => { e with faces := e.faces ++ [fe] }
    | none => e

/-- A fresh image entry from a row's image columns. -/
def entryOfRow (r : OutRow) : ImageEntry :=
  { id := r.image_id
    filename := r.filename
    source_url := r.source_url
    width := r.width
    height := r.height
    created_at := r.created_at
    faces := (faceEntryOfRow r).toList }

/-- Modelled from the spec: `_build_image_records` (`backend/database.py`,
not under `src/`): §4.2 and §9 — a single linear pass over the flat row
sequence keyed by first-seen image id using an order-preserving map, nesting
faces and matches; an image whose single row has NULL face columns gets an
empty face sequence. -/
def groupStep (acc : List ImageEntry) (r : OutRow) : List ImageEntry :=
  if acc.any (fun e => e.id == r.image_id) then
    acc.map (fun e => if e.id == r.image_id then addRowToEntry e r else e)
  else
    acc ++ [entryOfRow r]

def groupRows (rows : List OutRow) : List ImageEntry :=
  rows.foldl groupStep []

/-- Modelled from the spec: the request path `GET /images` →
`services.get_images` → `database.get_all_images` (none under `src/`):
validate the request (§4.1 "limit of zero or negative … reject with an
input-validation error"; §6 cursor/mode rejection), call the RPC, group the
rows, and apply the `limit + 1` protocol of §4.1 step 5 and the RPC header
comment (SQL lines 78-79): when `limit + 1` images come back, trim the last
image and build the next cursor from that trimmed image's sort-key fields;
otherwise return no cursor. -/
def get_images (db : Db) (req : Request) : Except ApiError PageResponse :=
  if ¬ cursorMatchesMode req.cursor req.sort_person_id then
    .error (.invalidInput "cursor does not match sort mode")
  else if req.limit ≤ 0 then
    .error (.invalidInput "limit must be a positive integer")
  else
    match get_all_images_with_person_matches db (toParams req) with
    | none => .error (.storage "query failed")
    | some rows =>
      let entries := groupRows rows
      if req.limit < entries.length then
        let kept := entries.take req.limit.toNat
        match kept.getLast?, rows.find? (fun r =>
            !(kept.any (fun e => e.id == r.image_id))) with
        | some _, some extraRow =>
          .ok { images := kept
                next_cursor := some (cursorFromRow req.sort_person_id extraRow) }
        | _, _ =>
          .ok { images := kept, next_cursor := none }
      else
        .ok { images := entries, next_cursor := none }

/-- Modelled from the spec: the infinite-scroll consumption loop (§8 "for all
pages fetched in sequence", the frontend `useInfiniteQuery` loop): fetch a
page, emit its images, feed the returned cursor into the next call until the
cursor is absent.  `fuel` bounds the recursion; every theorem supplies enough
fuel for the loop to run to completion. -/
def drainPages (db : Db) (req : Request) : Nat → Option Cursor → List ImageEntry
  | 0, _ => []
  | fuel + 1, c =>
    match get_images db { req with cursor := c } with
    | .error _ => []
    | .ok pg =>
      pg.images ++
        (match pg.next_cursor with
         | none => []
         | some c' => drainPages db req fuel (some c'))

/-! ## Sort keys

The two sort orders of the `ORDER BY` (lines 233-240) are captured by key
functions into lexicographic products, so that a `LinearOrder` drives all
order reasoning.  `NULLS LAST` is encoded by a leading `Bool` (`true` =
NULL), `DESC` by negation. -/

/-- Lexicographic key of an `is_tagged`-style column (`DESC NULLS LAST`). -/
def keyTag (o : Option Int) : Bool ×ₗ Int :=
  toLex (match o with
  | none => (true, 0)
  | some t => (false, -t))

/-- Lexicographic key of a `min_distance`-style column (`ASC NULLS LAST`). -/
def keyMd (o : Option ℚ) : Bool ×ₗ ℚ :=
  toLex (match o with
  | none => (true, 0)
  | some d => (false, d))

/-- The full person-mode sort key: `is_tagged DESC NULLS LAST, min_distance
ASC NULLS LAST, id ASC`. -/
def keyP (r : BaseRow) : (Bool ×ₗ Int) ×ₗ ((Bool ×ₗ ℚ) ×ₗ Nat) :=
  toLex (keyTag r.is_tagged, toLex (keyMd r.min_distance, r.id))

/-- The full newest-mode sort key: `created_at DESC, id ASC`. -/
def keyN (r : BaseRow) : Int ×ₗ Nat :=
  toLex (-r.created_at, r.id)

theorem keyTag_lt_iff (o₁ o₂ : Option Int) :
    keyTag o₁ < keyTag o₂ ↔ ltOptDesc o₁ o₂ = true := by
  cases o₁ <;> cases o₂ <;>
    simp [keyTag, ltOptDesc, Prod.Lex.lt_iff, Bool.lt_iff] <;> omega

theorem keyTag_eq_iff (o₁ o₂ : Option Int) : keyTag o₁ = keyTag o₂ ↔ o₁ = o₂ := by
  cases o₁ <;> cases o₂ <;>
    simp [keyTag, toLex, Equiv.coe_fn_mk, Prod.ext_iff]

theorem keyMd_lt_iff (o₁ o₂ : Option ℚ) :
    keyMd o₁ < keyMd o₂ ↔ ltOptAsc o₁ o₂ = true := by
  cases o₁ <;> cases o₂ <;>
    simp [keyMd, ltOptAsc, Prod.Lex.lt_iff, Bool.lt_iff]

theorem keyMd_eq_iff (o₁ o₂ : Option ℚ) : keyMd o₁ = keyMd o₂ ↔ o₁ = o₂ := by
  cases o₁ <;> cases o₂ <;>
    simp [keyMd, toLex, Equiv.coe_fn_mk, Prod.ext_iff]


theorem rowLt_true_iff (a b : BaseRow) :
    rowLt true a b = true ↔ keyP a < keyP b := by
  have h1 := keyTag_lt_iff a.is_tagged b.is_tagged
  have h2 := keyTag_eq_iff a.is_tagged b.is_tagged
  have h3 := keyMd_lt_iff a.min_distance b.min_distance
  have h4 := keyMd_eq_iff a.min_distance b.min_distance
  simp only [keyP, Prod.Lex.lt_iff, Prod.fst, Prod.snd, h1, h2, h3, h4]
  simp only [rowLt, if_true, ltOptDesc, Bool.or_eq_true, Bool.and_eq_true,
    beq_iff_eq, decide_eq_true_eq, Bool.or_false, Bool.and_false, Bool.false_or,
    Bool.and_true, Bool.true_and]
  tauto

theorem rowLt_false_eq (a b : BaseRow) :
    rowLt false a b =
      (decide (b.created_at < a.created_at) ||
        (a.created_at == b.created_at && decide (a.id < b.id))) := by
  simp [rowLt, ltOptDesc, ltOptAsc]

theorem rowLt_false_iff (a b : BaseRow) :
    rowLt false a b = true ↔ keyN a < keyN b := by
  rw [rowLt_false_eq]
  simp only [keyN, Prod.Lex.lt_iff, Bool.or_eq_true, Bool.and_eq_true,
    beq_iff_eq, decide_eq_true_eq]
  omega

/-! ## Generic theory of `sortBy` under a key function -/

section SortTheory

variable {α : Type} {κ : Type} [LinearOrder κ]

theorem insertSorted_perm (le : α → α → Bool) (a : α) :
    ∀ l : List α, (insertSorted le a l).Perm (a :: l) := by
  intro l
  induction l with
  | nil => simp [insertSorted]
  | cons b t ih =>
    simp only [insertSorted]
    by_cases h : le a b = true
    · rw [if_pos h]
    · rw [if_neg h]
      exact (ih.cons b).trans (List.Perm.swap a b t)

theorem sortBy_perm (le : α → α → Bool) :
    ∀ l : List α, (sortBy le l).Perm l := by
  intro l
  induction l with
  | nil => simp [sortBy]
  | cons a t ih =>
    exact (insertSorted_perm le a (sortBy le t)).trans (ih.cons a)

theorem mem_insertSorted {le : α → α → Bool} {a x : α} {l : List α} :
    x ∈ insertSorted le a l ↔ x = a ∨ x ∈ l := by
  have := (insertSorted_perm le a l).mem_iff (a := x)
  simpa using this

variable {key : α → κ} {le : α → α → Bool}

theorem pairwise_insertSorted
    (hle : ∀ a b, le a b = true ↔ key a ≤ key b) {a : α} {l : List α}
    (h : l.Pairwise (fun x y => key x ≤ key y)) :
    (insertSorted le a l).Pairwise (fun x y => key x ≤ key y) := by
  induction l with
  | nil => simp [insertSorted]
  | cons b t ih =>
    simp only [insertSorted]
    rcases h with - | ⟨hb, ht⟩
    by_cases hab : le a b = true
    · rw [if_pos hab]
      refine List.Pairwise.cons ?_ (List.Pairwise.cons hb ht)
      intro x hx
      rcases List.mem_cons.1 hx with rfl | hx
      · exact (hle a x).1 hab
      · exact le_trans ((hle a b).1 hab) (hb x hx)
    · rw [if_neg hab]
      refine List.Pairwise.cons ?_ (ih ht)
      intro x hx
      rcases mem_insertSorted.1 hx with rfl | hx
      · exact le_of_not_le (fun hc => hab ((hle _ _).2 hc))
      · exact hb x hx

theorem pairwise_sortBy
    (hle : ∀ a b, le a b = true ↔ key a ≤ key b) :
    ∀ l : List α, (sortBy le l).Pairwise (fun x y => key x ≤ key y) := by
  intro l
  induction l with
  | nil => simp [sortBy]
  | cons a t ih => exact pairwise_insertSorted hle ih

/-- With pairwise-distinct keys the sorted list is strictly increasing. -/
theorem pairwise_lt_sortBy
    (hle : ∀ a b, le a b = true ↔ key a ≤ key b) {l : List α}
    (hnd : l.Pairwise (fun x y => key x ≠ key y)) :
    (sortBy le l).Pairwise (fun x y => key x < key y) := by
  have h1 := pairwise_sortBy hle l
  have h2 : (sortBy le l).Pairwise (fun x y => key x ≠ key y) :=
    ((sortBy_perm le l).pairwise_iff (fun {x y} h => h.symm)).2 hnd
  exact (h1.and h2).imp (fun h => lt_of_le_of_ne h.1 h.2)

/-- A strictly-increasing list is determined by its members: the uniqueness
half of sortedness. -/
theorem eq_of_perm_of_pairwise_lt (key : α → κ) {l₁ l₂ : List α}
    (hp : l₁.Perm l₂) (h₁ : l₁.Pairwise (fun x y => key x < key y))
    (h₂ : l₂.Pairwise (fun x y => key x < key y)) : l₁ = l₂ := by
  have inst : IsAntisymm α (fun x y => key x < key y) :=
    ⟨fun a b (h : key a < key b) (h' : key b < key a) =>
      absurd h' (not_lt.2 (le_of_lt h))⟩
  exact @List.eq_of_perm_of_sorted α (fun x y => key x < key y) inst l₁ l₂ hp h₁ h₂

/-- Filtering commutes with sorting (under pairwise-distinct keys). -/
theorem filter_sortBy_comm
    (hle : ∀ a b, le a b = true ↔ key a ≤ key b) {l : List α}
    (hnd : l.Pairwise (fun x y => key x ≠ key y)) (p : α → Bool) :
    (sortBy le l).filter p = sortBy le (l.filter p) := by
  have hperm : ((sortBy le l).filter p).Perm (sortBy le (l.filter p)) :=
    ((sortBy_perm le l).filter p).trans (sortBy_perm le (l.filter p)).symm
  refine eq_of_perm_of_pairwise_lt key hperm ?_ ?_
  · exact (pairwise_lt_sortBy hle hnd).sublist (List.filter_sublist _)
  · exact pairwise_lt_sortBy hle (hnd.sublist (List.filter_sublist _))

/-- In a strictly-increasing list, the elements strictly after position `i`
in key order form exactly the suffix after position `i`. -/
theorem filter_key_lt_eq_drop :
    ∀ (l : List α), l.Pairwise (fun x y => key x < key y) →
      ∀ (i : Fin l.length),
        l.filter (fun x => decide (key (l.get i) < key x)) = l.drop (i + 1) := by
  intro l
  induction l with
  | nil => intro _ i; exact absurd i.2 (by simp)
  | cons a t ih =>
    intro hp i
    rcases hp with - | ⟨ha, ht⟩
    match i with
    | ⟨0, _⟩ =>
      have hget : (a :: t).get ⟨0, by simp⟩ = a := rfl
      rw [hget, List.filter_cons_of_neg (by simp)]
      have hself : t.filter (fun x => decide (key a < key x)) = t :=
        List.filter_eq_self.2 (fun x hx => by
          simp only [decide_eq_true_eq]
          exact ha x hx)
      simpa using hself
    | ⟨j + 1, hj⟩ =>
      have hj' : j < t.length := by simpa using hj
      have hc : (a :: t).get ⟨j + 1, hj⟩ = t.get ⟨j, hj'⟩ := rfl
      rw [hc, List.filter_cons_of_neg (by
        simp only [decide_eq_true_eq, decide_eq_false_iff_not]
        exact not_lt.2 (le_of_lt (ha _ (t.get_mem _ _))))]
      simpa using ih ht ⟨j, hj'⟩

end SortTheory

/-! ## The unified sort key and the cursor predicate -/

/-- A single key type covering both modes (the four `ORDER BY` expressions of
lines 233-240). -/
def keyFull : Bool → BaseRow →
    (Bool ×ₗ Int) ×ₗ ((Bool ×ₗ ℚ) ×ₗ ((Bool ×ₗ Int) ×ₗ Nat))
  | true, r =>
    toLex (keyTag r.is_tagged, toLex (keyMd r.min_distance,
      toLex (keyTag none, r.id)))
  | false, r =>
    toLex (keyTag none, toLex (keyMd none,
      toLex (keyTag (some r.created_at), r.id)))

theorem rowLt_iff_keyFull (pm : Bool) (a b : BaseRow) :
    rowLt pm a b = true ↔ keyFull pm a < keyFull pm b := by
  cases pm
  · rw [rowLt_false_iff]
    simp only [keyFull, keyN, Prod.Lex.lt_iff, keyTag_lt_iff, keyTag_eq_iff,
      keyMd_lt_iff, keyMd_eq_iff, ltOptDesc, ltOptAsc, Option.some.injEq,
      decide_eq_true_eq, Bool.false_eq_true, false_or, true_and]
    omega
  · rw [rowLt_true_iff]
    simp only [keyFull, keyP, Prod.Lex.lt_iff, keyTag_lt_iff, keyTag_eq_iff,
      keyMd_lt_iff, keyMd_eq_iff, ltOptDesc, decide_eq_true_eq,
      Bool.false_eq_true, false_or, true_and, false_and, or_false, and_true]

theorem rowLe_iff_keyFull (pm : Bool) (a b : BaseRow) :
    rowLe pm a b = true ↔ keyFull pm a ≤ keyFull pm b := by
  rw [rowLe, Bool.not_eq_true', ← Bool.not_eq_true, not_iff_comm,
    rowLt_iff_keyFull, not_le]

theorem keyFull_id_eq {pm : Bool} {a b : BaseRow}
    (h : keyFull pm a = keyFull pm b) : a.id = b.id := by
  cases pm <;>
  · have h2 := congrArg (fun k => (ofLex (ofLex (ofLex k).2).2).2) h
    simpa [keyFull] using h2

/-- The keyset cursor predicate, per cursor shape, on a `base_images` row:
the newest shape is the condition of lines 195-200, the person shape the
condition of lines 207-232. -/
def afterB : Cursor → BaseRow → Bool
  | .newest ca cid, r =>
    decide (r.created_at < ca) ||
      (decide (r.created_at = ca) && decide (cid < r.id))
  | .person t md cid, r =>
    (match r.is_tagged with
     | some rt => decide (rt < t)
     | none => false) ||
    ((match r.is_tagged with
      | some rt => decide (rt = t)
      | none => false) &&
     ((match md, r.min_distance with
       | some cm, some m => decide (cm < m)
       | _, _ => false) ||
      (md.isSome && r.min_distance.isNone) ||
      (md.isNone && r.min_distance.isNone && decide (cid < r.id)) ||
      (match r.min_distance, md with
       | some m, some cm => decide (m = cm) && decide (cid < r.id)
       | _, _ => false)))

/-- Absent cursor: no filtering. -/
def afterO : Option Cursor → BaseRow → Bool
  | none, _ => true
  | some c, r => afterB c r

/-- Serialize a cursor from a `base_images` row's sort-key fields under the
active mode's field names (SQL lines 74-76). -/
def cursorForBase : Option Nat → BaseRow → Cursor
  | none, r => .newest r.created_at r.id
  | some _, r => .person (r.is_tagged.getD 0) r.min_distance r.id

/-- The cursor serialized from row `x` selects exactly the rows strictly
after `x` in the active sort order (on rows carrying the person metrics when
person mode is on). -/
theorem afterB_cursorForBase (m : Option Nat) (x r : BaseRow)
    (hx : m.isSome → x.is_tagged.isSome) (hr : m.isSome → r.is_tagged.isSome) :
    afterB (cursorForBase m x) r = true ↔
      keyFull m.isSome x < keyFull m.isSome r := by
  cases m with
  | none =>
    rw [show keyFull none.isSome = keyFull false from rfl, ← rowLt_iff_keyFull,
      rowLt_false_eq]
    simp [afterB, cursorForBase, beq_iff_eq]
    omega
  | some pid =>
    rcases Option.isSome_iff_exists.1 (hx (by simp)) with ⟨tx, htx⟩
    rcases Option.isSome_iff_exists.1 (hr (by simp)) with ⟨tr, htr⟩
    rw [show keyFull (some pid).isSome = keyFull true from rfl,
      ← rowLt_iff_keyFull]
    rw [show cursorForBase (some pid) x =
      .person (x.is_tagged.getD 0) x.min_distance x.id from rfl]
    rw [htx]
    simp only [afterB, rowLt, if_true, htx, htr, Option.getD_some,
      ltOptDesc, ltOptAsc, Bool.or_eq_true, Bool.and_eq_true, beq_iff_eq,
      Option.some.injEq, decide_eq_true_eq]
    cases hmx : x.min_distance <;> cases hmr : r.min_distance <;>
      simp [Option.isSome, Option.isNone] <;> constructor <;> intro h <;>
        tauto

/-! ## Characterizing one engine invocation as a window on the full fetch -/

/-- The full ordered result of the engine under a fixed mode, search and
database, with no cursor and no truncation: the "single unpaginated
evaluation under the same ordering and filter" that pagination is measured
against (it equals the page returned for any `limit` at least the number of
eligible images; see `get_images_unpaginated`). -/
def fullFetch (db : Db) (req : Request) : List BaseRow :=
  sortBy (rowLe req.sort_person_id.isSome)
    (base_images db (toParams { req with cursor := none }))

theorem personCursorCond_of_no_cursor {q : QueryParams}
    (h : q.cursor_id = none) (r : BaseRow) : personCursorCond q r = true := by
  simp [personCursorCond, h]

theorem personCursorCond_of_no_person {q : QueryParams}
    (h : q.sort_person_id = none) (r : BaseRow) : personCursorCond q r = true := by
  simp [personCursorCond, h]

theorem searchCond_toParams (req : Request) (c : Option Cursor) (i : Image) :
    searchCond (toParams { req with cursor := c }) i =
      searchCond (toParams { req with cursor := none }) i := rfl

theorem isTaggedCol_toParams (db : Db) (req : Request) (c : Option Cursor)
    (i : Image) :
    isTaggedCol db (toParams { req with cursor := c }) i =
      isTaggedCol db (toParams { req with cursor := none }) i := rfl

theorem minDistanceCol_toParams (db : Db) (req : Request) (c : Option Cursor)
    (i : Image) :
    minDistanceCol db (toParams { req with cursor := c }) i =
      minDistanceCol db (toParams { req with cursor := none }) i := rfl

theorem base_images_cursor_invariant (db : Db) (req : Request)
    (c : Option Cursor) (hm : req.sort_person_id.isSome = true) :
    base_images db (toParams { req with cursor := c }) =
      base_images db (toParams { req with cursor := none }) := by
  unfold base_images
  have hp : ∀ i ∈ db.images,
      (i.source_url.isSome &&
        searchCond (toParams { req with cursor := c }) i &&
        defaultCursorCond (toParams { req with cursor := c }) i) =
      (i.source_url.isSome &&
        searchCond (toParams { req with cursor := none }) i &&
        defaultCursorCond (toParams { req with cursor := none }) i) := by
    intro i _
    have h1 : defaultCursorCond (toParams { req with cursor := c }) i = true := by
      simp [defaultCursorCond, toParams, hm]
    have h2 : defaultCursorCond (toParams { req with cursor := none }) i = true := by
      simp [defaultCursorCond, toParams, hm]
    rw [h1, h2, searchCond_toParams]
  rw [List.filter_congr hp]
  rfl

theorem cursor_filter_factor (db : Db) (req : Request) (c : Option Cursor)
    (hmode : cursorMatchesMode c req.sort_person_id = true) :
    (base_images db (toParams { req with cursor := c })).filter
        (personCursorCond (toParams { req with cursor := c })) =
      (base_images db (toParams { req with cursor := none })).filter
        (afterO c) := by
  cases c with
  | none =>
    rw [List.filter_congr (fun r _ =>
      personCursorCond_of_no_cursor (q := toParams { req with cursor := none })
        rfl r)]
    rw [List.filter_congr (fun (r : BaseRow) _ => show afterO none r = true from rfl)]
  | some cur =>
    cases cur with
    | newest ca cid =>
      have hm : req.sort_person_id = none := by
        cases h : req.sort_person_id
        · rfl
        · rw [h] at hmode; exact absurd hmode (by simp [cursorMatchesMode])
      rw [List.filter_congr (fun r _ =>
        personCursorCond_of_no_person
          (q := toParams { req with cursor := some (.newest ca cid) })
          (by simp [toParams, hm]) r)]
      rw [List.filter_true]
      unfold base_images
      rw [List.filter_map]
      apply congrArg
      rw [List.filter_filter]
      apply List.filter_congr
      intro i _
      have hd : defaultCursorCond
          (toParams { req with cursor := some (.newest ca cid) }) i =
          afterB (.newest ca cid)
            { id := i.id, created_at := i.created_at,
              is_tagged := isTaggedCol db
                (toParams { req with cursor := none }) i,
              min_distance := minDistanceCol db
                (toParams { req with cursor := none }) i } := by
        simp [defaultCursorCond, toParams, afterB, hm]
      have hd0 : defaultCursorCond (toParams { req with cursor := none }) i = true := by
        simp [defaultCursorCond, toParams]
      rw [show searchCond (toParams { req with cursor := some (.newest ca cid) }) i =
        searchCond (toParams { req with cursor := none }) i from rfl]
      rw [hd0, hd]
      simp only [Function.comp, Bool.and_true, afterO]
      rw [Bool.and_comm]
    | person t md cid =>
      have hm : req.sort_person_id.isSome = true := by
        cases h : req.sort_person_id
        · rw [h] at hmode; exact absurd hmode (by simp [cursorMatchesMode])
        · rfl
      rw [base_images_cursor_invariant db req _ hm]
      apply List.filter_congr
      intro r _
      have hm2 : req.sort_person_id.isNone = false := by
        cases h : req.sort_person_id
        · rw [h] at hm; simp at hm
        · simp
      simp only [personCursorCond, afterO, afterB, toParams, hm2,
        Option.isNone_none, Option.isSome_some, Bool.false_or]
      cases r.is_tagged <;> cases md <;> cases r.min_distance <;> simp [hm2]

theorem base_images_is_tagged_isSome {db : Db} {q : QueryParams}
    (hm : q.sort_person_id.isSome = true) :
    ∀ r ∈ base_images db q, r.is_tagged.isSome = true := by
  intro r hr
  rcases List.mem_map.1 hr with ⟨i, _, hi⟩
  rcases Option.isSome_iff_exists.1 hm with ⟨pid, hq⟩
  rw [← hi]
  simp [isTaggedCol, hq]

theorem base_images_ids_nodup (db : Db) (q : QueryParams)
    (hnd : (db.images.map (·.id)).Nodup) :
    ((base_images db q).map (·.id)).Nodup := by
  unfold base_images
  rw [List.map_map]
  exact List.Nodup.sublist ((List.filter_sublist _).map _) hnd

theorem base_images_pairwise_keys (db : Db) (q : QueryParams) (pm : Bool)
    (hnd : (db.images.map (·.id)).Nodup) :
    (base_images db q).Pairwise (fun a b => keyFull pm a ≠ keyFull pm b) := by
  have h := base_images_ids_nodup db q hnd
  rw [List.Nodup, List.pairwise_map] at h
  exact h.imp (fun hne he => hne (keyFull_id_eq he))

theorem fullFetch_pairwise (db : Db) (req : Request)
    (hnd : (db.images.map (·.id)).Nodup) :
    (fullFetch db req).Pairwise (fun a b =>
      keyFull req.sort_person_id.isSome a < keyFull req.sort_person_id.isSome b) :=
  pairwise_lt_sortBy (rowLe_iff_keyFull req.sort_person_id.isSome)
    (base_images_pairwise_keys db _ _ hnd)

theorem fullFetch_is_tagged_isSome (db : Db) (req : Request)
    (hm : req.sort_person_id.isSome = true) :
    ∀ r ∈ fullFetch db req, r.is_tagged.isSome = true := by
  intro r hr
  exact base_images_is_tagged_isSome (q := toParams { req with cursor := none })
    hm r ((sortBy_perm _ _).mem_iff.1 hr)

theorem paginated_eq_window (db : Db) (req : Request) (c : Option Cursor)
    (hmode : cursorMatchesMode c req.sort_person_id = true)
    (hnd : (db.images.map (·.id)).Nodup) (hlim : 1 ≤ req.limit) :
    paginated db (toParams { req with cursor := c }) =
      some (((fullFetch db req).filter (afterO c)).take (req.limit.toNat + 1)) := by
  unfold paginated
  have h0 : ¬ ((toParams { req with cursor := c }).limit + 1 < 0) := by
    simp only [toParams]
    omega
  rw [if_neg h0]
  have hq : (toParams { req with cursor := c }).limit = req.limit := rfl
  have hcount : (req.limit + 1).toNat = req.limit.toNat + 1 := by omega
  rw [hq, hcount]
  apply congrArg
  apply congrArg
  rw [cursor_filter_factor db req c hmode]
  show sortBy (rowLe req.sort_person_id.isSome)
      (List.filter (afterO c)
        (base_images db (toParams { req with cursor := none }))) =
    List.filter (afterO c) (fullFetch db req)
  rw [← filter_sortBy_comm (rowLe_iff_keyFull req.sort_person_id.isSome)
    (base_images_pairwise_keys db _ req.sort_person_id.isSome hnd) (afterO c)]
  rfl

/-! ## The denormalized rows of one paginated image -/

/-- The final-`SELECT` rows contributed by one paginated row (the joins of
lines 265-280 restricted to one image id). -/
def blockOf (db : Db) (threshold : ℚ) (top_n : Nat) (p : BaseRow) :
    List OutRow :=
  (db.images.filter (fun i => i.id == p.id)).flatMap
    (rowsForImage db threshold top_n p)

theorem get_all_eq_blocks (db : Db) (q : QueryParams) :
    get_all_images_with_person_matches db q =
      (paginated db q).map (fun pg =>
        pg.flatMap (blockOf db q.threshold q.top_n)) := rfl

theorem rowsForFace_fields (db : Db) (threshold : ℚ) (top_n : Nat)
    (p : BaseRow) (i : Image) (f : DetectedFace) :
    ∀ r ∈ rowsForFace db threshold top_n p i f,
      r.image_id = p.id ∧ r.created_at = p.created_at ∧
      r.sort_is_tagged = p.is_tagged ∧ r.sort_min_distance = p.min_distance := by
  intro r hr
  unfold rowsForFace at hr
  rcases hms : matchesFor db threshold top_n f.encoding with - | ⟨m, ms⟩ <;>
    rw [hms] at hr
  · simp only [List.mem_singleton] at hr
    subst hr
    exact ⟨rfl, rfl, rfl, rfl⟩
  · rcases List.mem_map.1 hr with ⟨m', _, hm⟩
    subst hm
    exact ⟨rfl, rfl, rfl, rfl⟩

theorem blockOf_fields (db : Db) (threshold : ℚ) (top_n : Nat) (p : BaseRow) :
    ∀ r ∈ blockOf db threshold top_n p,
      r.image_id = p.id ∧ r.created_at = p.created_at ∧
      r.sort_is_tagged = p.is_tagged ∧ r.sort_min_distance = p.min_distance := by
  intro r hr
  rcases List.mem_flatMap.1 hr with ⟨i, _, hri⟩
  unfold rowsForImage at hri
  rcases hfs : db.faces.filter (fun f => f.image_id == some i.id) with - | ⟨f, fs⟩ <;>
    rw [hfs] at hri
  · simp only [List.mem_singleton] at hri
    subst hri
    exact ⟨rfl, rfl, rfl, rfl⟩
  · exact rowsForFace_fields db threshold top_n p i _ r
      (List.mem_flatMap.1 hri).choose_spec.2

theorem rowsForFace_ne_nil (db : Db) (threshold : ℚ) (top_n : Nat)
    (p : BaseRow) (i : Image) (f : DetectedFace) :
    rowsForFace db threshold top_n p i f ≠ [] := by
  unfold rowsForFace
  rcases hms : matchesFor db threshold top_n f.encoding with - | ⟨m, ms⟩ <;> simp

theorem rowsForImage_ne_nil (db : Db) (threshold : ℚ) (top_n : Nat)
    (p : BaseRow) (i : Image) :
    rowsForImage db threshold top_n p i ≠ [] := by
  unfold rowsForImage
  rcases hfs : db.faces.filter (fun f => f.image_id == some i.id) with - | ⟨f, fs⟩ <;>
    rw [hfs]
  · simp
  · simp only [ne_eq, List.flatMap_eq_nil_iff, not_forall]
    refine ⟨f, ?_⟩
    simp only [List.mem_cons, true_or, not_forall, exists_prop, true_and]
    exact rowsForFace_ne_nil db threshold top_n p i f

theorem blockOf_ne_nil (db : Db) (threshold : ℚ) (top_n : Nat) (p : BaseRow)
    (him : ∃ i ∈ db.images, i.id = p.id) :
    blockOf db threshold top_n p ≠ [] := by
  rcases him with ⟨i, hmem, hid⟩
  unfold blockOf
  simp only [ne_eq, List.flatMap_eq_nil_iff, not_forall]
  refine ⟨i, ?_, rowsForImage_ne_nil db threshold top_n p i⟩
  simp [List.mem_filter, hmem, hid]

/-! ## The grouping pass on uniform blocks -/

theorem addRowToEntry_id (e : ImageEntry) (r : OutRow) :
    (addRowToEntry e r).id = e.id := by
  unfold addRowToEntry
  split
  · rfl
  · rcases h : faceEntryOfRow r with - | fe <;> simp

theorem addRowToEntry_created_at (e : ImageEntry) (r : OutRow) :
    (addRowToEntry e r).created_at = e.created_at := by
  unfold addRowToEntry
  split
  · rfl
  · rcases h : faceEntryOfRow r with - | fe <;> simp

/-- The single image entry built from one image's block of rows. -/
def entryOfBlock : List OutRow → ImageEntry
  | [] =>
    { id := 0, filename := none, source_url := none, width := none,
      height := none, created_at := 0, faces := [] }
  | r :: rs => rs.foldl addRowToEntry (entryOfRow r)

theorem foldl_addRowToEntry_id (rs : List OutRow) :
    ∀ e : ImageEntry, (rs.foldl addRowToEntry e).id = e.id := by
  induction rs with
  | nil => intro e; rfl
  | cons r rs ih => intro e; rw [List.foldl_cons, ih, addRowToEntry_id]

theorem foldl_addRowToEntry_created_at (rs : List OutRow) :
    ∀ e : ImageEntry, (rs.foldl addRowToEntry e).created_at = e.created_at := by
  induction rs with
  | nil => intro e; rfl
  | cons r rs ih => intro e; rw [List.foldl_cons, ih, addRowToEntry_created_at]

theorem entryOfBlock_id {block : List OutRow} {x : Nat}
    (hne : block ≠ []) (hu : ∀ r ∈ block, r.image_id = x) :
    (entryOfBlock block).id = x := by
  rcases block with - | ⟨r, rs⟩
  · exact absurd rfl hne
  · rw [entryOfBlock, foldl_addRowToEntry_id]
    exact hu r (by simp)

theorem entryOfBlock_created_at {block : List OutRow} {v : Int}
    (hne : block ≠ []) (hu : ∀ r ∈ block, r.created_at = v) :
    (entryOfBlock block).created_at = v := by
  rcases block with - | ⟨r, rs⟩
  · exact absurd rfl hne
  · rw [entryOfBlock, foldl_addRowToEntry_created_at]
    exact hu r (by simp)

theorem foldl_groupStep_absorb :
    ∀ (block : List OutRow) (acc : List ImageEntry) (e : ImageEntry),
      (∀ r ∈ block, r.image_id = e.id) → (∀ x ∈ acc, x.id ≠ e.id) →
      List.foldl groupStep (acc ++ [e]) block =
        acc ++ [block.foldl addRowToEntry e] := by
  intro block
  induction block with
  | nil => intro acc e _ _; rfl
  | cons r rs ih =>
    intro acc e hu hacc
    have hrid : r.image_id = e.id := hu r (by simp)
    have hstep : groupStep (acc ++ [e]) r = acc ++ [addRowToEntry e r] := by
      unfold groupStep
      rw [if_pos (by
        refine List.any_eq_true.2 ⟨e, by simp, ?_⟩
        simp [hrid])]
      rw [List.map_append]
      congr 1
      · have hid2 : ∀ x ∈ acc,
            (if (x.id == r.image_id) = true then addRowToEntry x r else x) =
              id x := fun x hx => by
          rw [if_neg (by simp [hrid, hacc x hx])]
          rfl
        rw [List.map_congr_left hid2, List.map_id]
      · simp [hrid]
    rw [List.foldl_cons, hstep]
    rw [ih acc (addRowToEntry e r)
      (fun r' hr' => by rw [addRowToEntry_id]; exact hu r' (by simp [hr']))
      (fun x hx => by rw [addRowToEntry_id]; exact hacc x hx)]
    rfl

theorem foldl_groupStep_blocks (db : Db) (threshold : ℚ) (top_n : Nat) :
    ∀ (pg : List BaseRow) (acc : List ImageEntry),
      (∀ p ∈ pg, blockOf db threshold top_n p ≠ []) →
      ((pg.map (·.id)).Nodup) →
      (∀ p ∈ pg, ∀ x ∈ acc, x.id ≠ p.id) →
      List.foldl groupStep acc (pg.flatMap (blockOf db threshold top_n)) =
        acc ++ pg.map (fun p => entryOfBlock (blockOf db threshold top_n p)) := by
  intro pg
  induction pg with
  | nil => intro acc _ _ _; simp
  | cons p rest ih =>
    intro acc hne hnd hacc
    have hbne : blockOf db threshold top_n p ≠ [] := hne p (by simp)
    have hu : ∀ r ∈ blockOf db threshold top_n p, r.image_id = p.id :=
      fun r hr => (blockOf_fields db threshold top_n p r hr).1
    rcases hb : blockOf db threshold top_n p with - | ⟨r, rs⟩
    · exact absurd hb hbne
    · rw [List.flatMap_cons, hb, List.foldl_append, List.foldl_cons]
      have hu' : ∀ r' ∈ r :: rs, r'.image_id = p.id := by rw [← hb]; exact hu
      have hrid : r.image_id = p.id := hu' r (by simp)
      have hstep : groupStep acc r = acc ++ [entryOfRow r] := by
        unfold groupStep
        rw [if_neg (by
          simp only [List.any_eq_true, not_exists, not_and, Bool.not_eq_true]
          intro x hx
          simp [hrid, hacc p (by simp) x hx])]
      rw [hstep, foldl_groupStep_absorb rs acc (entryOfRow r)
        (fun r' hr' => by
          rw [show (entryOfRow r).id = r.image_id from rfl, hrid]
          exact hu' r' (by simp [hr']))
        (fun x hx => by
          rw [show (entryOfRow r).id = r.image_id from rfl, hrid]
          exact hacc p (by simp) x hx)]
      have hentry : rs.foldl addRowToEntry (entryOfRow r) =
          entryOfBlock (blockOf db threshold top_n p) := by
        rw [hb, entryOfBlock]
      rw [hentry]
      have heid : (entryOfBlock (blockOf db threshold top_n p)).id = p.id :=
        entryOfBlock_id hbne hu
      have hnd2 : (∀ x ∈ rest, ¬ x.id = p.id) ∧
          (List.map (fun x => x.id) rest).Nodup := by simpa using hnd
      rw [ih (acc ++ [entryOfBlock (blockOf db threshold top_n p)])
        (fun p' hp' => hne p' (by simp [hp']))
        hnd2.2
        (fun p' hp' x hx => by
          rcases List.mem_append.1 hx with hx | hx
          · exact hacc p' (by simp [hp']) x hx
          · rw [List.mem_singleton.1 hx, heid]
            intro hcon
            exact hnd2.1 p' hp' hcon.symm)]
      simp

theorem fullFetch_mem_image (db : Db) (req : Request) (p : BaseRow)
    (hp : p ∈ fullFetch db req) : ∃ i ∈ db.images, i.id = p.id := by
  have hb : p ∈ base_images db (toParams { req with cursor := none }) :=
    (sortBy_perm _ _).mem_iff.1 hp
  rcases List.mem_map.1 hb with ⟨i, hi, hmk⟩
  exact ⟨i, List.mem_filter.1 hi |>.1, by rw [← hmk]⟩

theorem fullFetch_ids_nodup (db : Db) (req : Request)
    (hnd : (db.images.map (·.id)).Nodup) :
    ((fullFetch db req).map (·.id)).Nodup := by
  have hperm := (sortBy_perm (rowLe req.sort_person_id.isSome)
    (base_images db (toParams { req with cursor := none }))).map (·.id)
  exact hperm.nodup_iff.2 (base_images_ids_nodup db _ hnd)

/-! ## Full characterization of one `get_images` call -/

/-- The page window: a valid engine invocation with cursor `c` shows the
first `limit` of the `limit + 1` fetched candidate images, and the next
cursor is built from the `(limit + 1)`-th candidate exactly when it exists. -/
theorem get_images_spec (db : Db) (req : Request) (c : Option Cursor)
    (hmode : cursorMatchesMode c req.sort_person_id = true)
    (hnd : (db.images.map (·.id)).Nodup) (hlim : 1 ≤ req.limit) :
    get_images db { req with cursor := c } =
      .ok { images := ((((fullFetch db req).filter (afterO c)).take
              (req.limit.toNat + 1)).take req.limit.toNat).map
              (fun p => entryOfBlock (blockOf db req.threshold req.top_n p)),
            next_cursor := ((((fullFetch db req).filter (afterO c)).take
              (req.limit.toNat + 1)).drop req.limit.toNat).head?.map
              (cursorForBase req.sort_person_id) } := by
  have hWsub : (((fullFetch db req).filter (afterO c)).take
      (req.limit.toNat + 1)).Sublist (fullFetch db req) :=
    ((List.take_sublist _ _).trans (List.filter_sublist _))
  set F := (fullFetch db req).filter (afterO c) with hF
  set W := F.take (req.limit.toNat + 1) with hW
  have hWnodup : (W.map (·.id)).Nodup :=
    List.Nodup.sublist (hWsub.map _) (fullFetch_ids_nodup db req hnd)
  have hWim : ∀ p ∈ W, ∃ i ∈ db.images, i.id = p.id :=
    fun p hp => fullFetch_mem_image db req p (hWsub.subset hp)
  have hWu : ∀ p ∈ W, ∀ r ∈ blockOf db req.threshold req.top_n p,
      r.image_id = p.id :=
    fun p _ r hr => (blockOf_fields db req.threshold req.top_n p r hr).1
  have hWne : ∀ p ∈ W, blockOf db req.threshold req.top_n p ≠ [] :=
    fun p hp => blockOf_ne_nil db _ _ p (hWim p hp)
  have hgroup : groupRows (W.flatMap (blockOf db req.threshold req.top_n)) =
      W.map (fun p => entryOfBlock (blockOf db req.threshold req.top_n p)) :=
    foldl_groupStep_blocks db req.threshold req.top_n W [] hWne hWnodup
      (fun _ _ x hx => absurd hx (List.not_mem_nil x))
  have hsql : get_all_images_with_person_matches db
      (toParams { req with cursor := c }) =
      some (W.flatMap (blockOf db req.threshold req.top_n)) := by
    rw [get_all_eq_blocks, paginated_eq_window db req c hmode hnd hlim]
    rfl
  unfold get_images
  rw [if_neg (by simp [hmode]), if_neg (by change ¬ req.limit ≤ 0; omega), hsql]
  simp only [hgroup]
  rw [List.length_map]
  have hmap : ∀ p ∈ W, (entryOfBlock (blockOf db req.threshold req.top_n p)).id
      = p.id := fun p hp => entryOfBlock_id (hWne p hp) (hWu p hp)
  rcases Nat.lt_or_ge W.length (req.limit.toNat + 1) with hlen | hlen
  · -- the window is short: a final page, no next cursor
    rw [if_neg (by omega)]
    rw [List.take_of_length_le (by omega), List.drop_eq_nil_of_le (by omega)]
    rfl
  · -- a full window: trim the last image, cursor from the trimmed row
    have hWlen : W.length = req.limit.toNat + 1 :=
      le_antisymm (List.length_take_le _ _) hlen
    rw [if_pos (by omega)]
    have hxlt : req.limit.toNat < W.length := by omega
    have hdropx : W.drop req.limit.toNat = [W[req.limit.toNat]] := by
      rw [List.drop_eq_getElem_cons hxlt, List.drop_eq_nil_of_le (by omega)]
    set x := W[req.limit.toNat] with hxdef
    have hxW : x ∈ W := List.getElem_mem hxlt
    -- the kept entries
    have hkept : (W.map (fun p =>
        entryOfBlock (blockOf db req.threshold req.top_n p))).take
          req.limit.toNat =
        (W.take req.limit.toNat).map (fun p =>
          entryOfBlock (blockOf db req.threshold req.top_n p)) :=
      (List.map_take _ _ _).symm
    rw [hkept]
    -- the kept list is nonempty, so `getLast?` is `some`
    have hkeptlen : ((W.take req.limit.toNat).map (fun p =>
        entryOfBlock (blockOf db req.threshold req.top_n p))).length =
        req.limit.toNat := by
      rw [List.length_map, List.length_take]
      omega
    have hkeptne : ((W.take req.limit.toNat).map (fun p =>
        entryOfBlock (blockOf db req.threshold req.top_n p))) ≠ [] := by
      intro hcon
      rw [hcon] at hkeptlen
      simp at hkeptlen
      omega
    rcases Option.isSome_iff_exists.1 (List.getLast?_isSome.2 hkeptne) with
      ⟨y, hy⟩
    rw [hy]
    -- the trimmed row is found as the first row of the trimmed image's block
    have hWsplit : W.take req.limit.toNat ++ [x] = W := by
      rw [← hdropx, List.take_append_drop]
    have hxid : x.id ∉ (W.take req.limit.toNat).map (·.id) := by
      intro hcon
      rw [← hWsplit] at hWnodup
      rw [List.map_append] at hWnodup
      rcases List.nodup_append.1 hWnodup with ⟨-, -, hdisj⟩
      exact hdisj hcon (by simp)
    have hpredfalse : ∀ r ∈ (W.take req.limit.toNat).flatMap
        (blockOf db req.threshold req.top_n),
        (!((W.take req.limit.toNat).map (fun p =>
          entryOfBlock (blockOf db req.threshold req.top_n p))).any
            (fun e => e.id == r.image_id)) = false := by
      intro r hr
      rcases List.mem_flatMap.1 hr with ⟨p, hp, hrp⟩
      have hpW : p ∈ W := (List.take_sublist _ _).subset hp
      simp only [Bool.not_eq_false', List.any_eq_true]
      refine ⟨entryOfBlock (blockOf db req.threshold req.top_n p),
        List.mem_map_of_mem _ hp, ?_⟩
      rw [hmap p hpW, hWu p hpW r hrp]
      simp
    rcases hbx : blockOf db req.threshold req.top_n x with - | ⟨r₀, rrest⟩
    · exact absurd hbx (hWne x hxW)
    · have hr₀ : r₀ ∈ blockOf db req.threshold req.top_n x := by
        rw [hbx]; simp
      have hflat : W.flatMap (blockOf db req.threshold req.top_n) =
          (W.take req.limit.toNat).flatMap (blockOf db req.threshold req.top_n)
            ++ blockOf db req.threshold req.top_n x := by
        conv_lhs => rw [← hWsplit]
        rw [List.flatMap_append, List.flatMap_cons, List.flatMap_nil,
          List.append_nil]
      have hpredtrue : (fun r => !((W.take req.limit.toNat).map (fun p =>
          entryOfBlock (blockOf db req.threshold req.top_n p))).any
            (fun e => e.id == r.image_id)) r₀ = true := by
        simp only [Bool.not_eq_true', List.any_eq_false]
        intro e he
        rcases List.mem_map.1 he with ⟨p, hp, hpe⟩
        have hpW : p ∈ W := (List.take_sublist _ _).subset hp
        rw [← hpe, hmap p hpW, hWu x hxW r₀ hr₀]
        have hne2 : p.id ≠ x.id := by
          intro hcon
          exact hxid (hcon ▸ List.mem_map_of_mem (·.id) hp)
        simp [hne2]
      have hfind : (W.flatMap (blockOf db req.threshold req.top_n)).find?
          (fun r => !((W.take req.limit.toNat).map (fun p =>
            entryOfBlock (blockOf db req.threshold req.top_n p))).any
              (fun e => e.id == r.image_id)) = some r₀ := by
        rw [hflat, List.find?_append]
        rw [List.find?_eq_none.2 (fun r hr => by
          rw [hpredfalse r hr]; exact Bool.false_ne_true)]
        rw [Option.none_or, hbx]
        exact List.find?_cons_of_pos rrest hpredtrue
      rw [hfind]
      have hfields := blockOf_fields db req.threshold req.top_n x r₀ hr₀
      have hcur : cursorFromRow req.sort_person_id r₀ =
          cursorForBase req.sort_person_id x := by
        rcases hfields with ⟨h1, h2, h3, h4⟩
        cases hsp : req.sort_person_id <;>
          simp [cursorFromRow, cursorForBase, h1, h2, h3, h4]
      rw [hdropx]
      simp only [List.head?_cons, Option.map_some', hcur]

/-! ## Page-boundary skipping -/

def skipChunksAux {α : Type} (n : Nat) : Nat → List α → List α
  | 0, l => l
  | fuel + 1, l =>
    if l.length ≤ n then l else l.take n ++ skipChunksAux n fuel (l.drop (n + 1))

/-- What the documented cursor protocol actually yields: the concatenation of
pages drops the `(n+1)`-th candidate of every full window.  `skipChunks n l`
removes every `(n+1)`-th element of `l` chunk by chunk. -/
def skipChunks {α : Type} (n : Nat) (l : List α) : List α :=
  skipChunksAux n l.length l

theorem skipChunksAux_nil {α : Type} (n fuel : Nat) :
    skipChunksAux (α := α) n fuel [] = [] := by
  cases fuel <;> simp [skipChunksAux]

theorem skipChunksAux_congr {α : Type} (n : Nat) :
    ∀ (f₁ f₂ : Nat) (l : List α), l.length ≤ f₁ → l.length ≤ f₂ →
      skipChunksAux n f₁ l = skipChunksAux n f₂ l := by
  intro f₁
  induction f₁ with
  | zero =>
    intro f₂ l h₁ _
    have hl : l = [] := List.length_eq_zero.1 (by omega)
    subst hl
    rw [skipChunksAux_nil, skipChunksAux_nil]
  | succ f ih =>
    intro f₂ l h₁ h₂
    cases f₂ with
    | zero =>
      have hl : l = [] := List.length_eq_zero.1 (by omega)
      subst hl
      rw [skipChunksAux_nil, skipChunksAux_nil]
    | succ f' =>
      show (if l.length ≤ n then l else
          l.take n ++ skipChunksAux n f (l.drop (n + 1))) =
        (if l.length ≤ n then l else
          l.take n ++ skipChunksAux n f' (l.drop (n + 1)))
      by_cases h : l.length ≤ n
      · rw [if_pos h, if_pos h]
      · rw [if_neg h, if_neg h,
          ih f' (l.drop (n + 1)) (by rw [List.length_drop]; omega)
            (by rw [List.length_drop]; omega)]

theorem skipChunks_short {α : Type} {n : Nat} {l : List α}
    (h : l.length ≤ n) : skipChunks n l = l := by
  unfold skipChunks
  cases l with
  | nil => exact skipChunksAux_nil n 0
  | cons a t =>
    show (if (a :: t).length ≤ n then (a :: t) else _) = _
    rw [if_pos h]

theorem skipChunks_long {α : Type} {n : Nat} {l : List α}
    (h : n < l.length) :
    skipChunks n l = l.take n ++ skipChunks n (l.drop (n + 1)) := by
  unfold skipChunks
  cases l with
  | nil => simp at h
  | cons a t =>
    show (if (a :: t).length ≤ n then (a :: t) else
        (a :: t).take n ++ skipChunksAux n t.length ((a :: t).drop (n + 1))) = _
    rw [if_neg (by omega)]
    rw [skipChunksAux_congr n t.length ((a :: t).drop (n + 1)).length
      ((a :: t).drop (n + 1)) (by rw [List.length_drop]; simp) (le_refl _)]

/-! ## The drain loop -/

theorem cursorForBase_matches (m : Option Nat) (z : BaseRow) :
    cursorMatchesMode (some (cursorForBase m z)) m = true := by
  cases m <;> rfl

/-- The window predicate of a row-issued cursor is upward closed in the sort
order on the rows of the full fetch. -/
theorem afterO_upward (db : Db) (req : Request) (c : Option Cursor)
    (hok : c = none ∨ ∃ z, (req.sort_person_id.isSome = true →
      z.is_tagged.isSome = true) ∧
      c = some (cursorForBase req.sort_person_id z))
    (x r : BaseRow)
    (hxS : x ∈ fullFetch db req) (hrS : r ∈ fullFetch db req)
    (hx : afterO c x = true)
    (hkey : keyFull req.sort_person_id.isSome x <
      keyFull req.sort_person_id.isSome r) : afterO c r = true := by
  rcases hok with rfl | ⟨z, hz, rfl⟩
  · rfl
  · have hxk := (afterB_cursorForBase req.sort_person_id z x hz
      (fun hm => fullFetch_is_tagged_isSome db req hm x hxS)).1 hx
    exact (afterB_cursorForBase req.sort_person_id z r hz
      (fun hm => fullFetch_is_tagged_isSome db req hm r hrS)).2
      (lt_trans hxk hkey)

/-- Per-member ids of the grouped entries. -/
theorem entries_ids (db : Db) (req : Request) (L : List BaseRow)
    (hsub : ∀ p ∈ L, p ∈ fullFetch db req) :
    (L.map (fun p => entryOfBlock (blockOf db req.threshold req.top_n p))).map
        (·.id) = L.map (·.id) := by
  rw [List.map_map]
  refine List.map_congr_left (fun p hp => ?_)
  exact entryOfBlock_id
    (blockOf_ne_nil db _ _ p (fullFetch_mem_image db req p (hsub p hp)))
    (fun r hr => (blockOf_fields db req.threshold req.top_n p r hr).1)

/-- The drain invariant: from any row-issued (or absent) cursor, the
concatenated pages are the remaining window minus the trimmed image at every
page boundary. -/
theorem drainPages_invariant (db : Db) (req : Request)
    (hnd : (db.images.map (·.id)).Nodup) (hlim : 1 ≤ req.limit) :
    ∀ (fuel : Nat) (c : Option Cursor),
      cursorMatchesMode c req.sort_person_id = true →
      (c = none ∨ ∃ z, (req.sort_person_id.isSome = true →
        z.is_tagged.isSome = true) ∧
        c = some (cursorForBase req.sort_person_id z)) →
      ((fullFetch db req).filter (afterO c)).length ≤ fuel →
      (drainPages db req fuel c).map (·.id) =
        (skipChunks req.limit.toNat
          ((fullFetch db req).filter (afterO c))).map (·.id) := by
  intro fuel
  induction fuel with
  | zero =>
    intro c _ _ hfuel
    have hnil : (fullFetch db req).filter (afterO c) = [] :=
      List.length_eq_zero.1 (by omega)
    rw [hnil]
    show ([] : List ImageEntry).map (·.id) = _
    rw [skipChunks_short (by simp)]
    rfl
  | succ fuel ih =>
    intro c hmode hok hfuel
    set R := (fullFetch db req).filter (afterO c) with hR
    have hRsub : R.Sublist (fullFetch db req) := List.filter_sublist _
    have hstep : drainPages db req (fuel + 1) c =
        (match get_images db { req with cursor := c } with
          | .error _ => ([] : List ImageEntry)
          | .ok pg => pg.images ++
              (match pg.next_cursor with
               | none => []
               | some c' => drainPages db req fuel (some c'))) := rfl
    rw [hstep, get_images_spec db req c hmode hnd hlim]
    rcases Nat.lt_or_ge req.limit.toNat R.length with hlong | hshort
    · -- full window: trim, recurse from the trimmed row's cursor
      have hWlen : (R.take (req.limit.toNat + 1)).length =
          req.limit.toNat + 1 := by
        rw [List.length_take]
        omega
      have hxlt : req.limit.toNat < (R.take (req.limit.toNat + 1)).length := by
        omega
      have hxR : req.limit.toNat < R.length := hlong
      have hdropx : (R.take (req.limit.toNat + 1)).drop req.limit.toNat =
          [R[req.limit.toNat]] := by
        rw [List.drop_eq_getElem_cons hxlt, List.drop_eq_nil_of_le (by omega),
          List.getElem_take]
      set x := R[req.limit.toNat] with hxdef
      have hxmem : x ∈ R := List.getElem_mem hxR
      have hxS : x ∈ fullFetch db req := hRsub.subset hxmem
      have hxsome : req.sort_person_id.isSome = true →
          x.is_tagged.isSome = true :=
        fun hm => fullFetch_is_tagged_isSome db req hm x hxS
      have htake2 : (R.take (req.limit.toNat + 1)).take req.limit.toNat =
          R.take req.limit.toNat := by
        rw [List.take_take]
        congr 1
        omega
      rw [hdropx, htake2]
      show ((R.take req.limit.toNat).map (fun p =>
          entryOfBlock (blockOf db req.threshold req.top_n p)) ++
        drainPages db req fuel (some (cursorForBase req.sort_person_id x))).map
          (fun e => e.id) =
        (skipChunks req.limit.toNat R).map (fun r => r.id)
      -- the next window
      have hnextfilter : (fullFetch db req).filter
          (afterO (some (cursorForBase req.sort_person_id x))) =
          R.drop (req.limit.toNat + 1) := by
        have h1 : (fullFetch db req).filter
            (afterO (some (cursorForBase req.sort_person_id x))) =
            (fullFetch db req).filter (fun r =>
              decide (keyFull req.sort_person_id.isSome x <
                keyFull req.sort_person_id.isSome r) && afterO c r) := by
          refine List.filter_congr (fun r hrS => ?_)
          have hbr := afterB_cursorForBase req.sort_person_id x r hxsome
            (fun hm => fullFetch_is_tagged_isSome db req hm r hrS)
          rcases hdec : decide (keyFull req.sort_person_id.isSome x <
              keyFull req.sort_person_id.isSome r) with - | -
          · rw [Bool.false_and]
            show afterB (cursorForBase req.sort_person_id x) r = false
            rw [← Bool.not_eq_true]
            intro hcon
            have := hbr.1 hcon
            rw [← decide_eq_true_eq (p := keyFull req.sort_person_id.isSome x <
              keyFull req.sort_person_id.isSome r)] at this
            rw [hdec] at this
            exact Bool.false_ne_true this
          · rw [Bool.true_and]
            have hkey : keyFull req.sort_person_id.isSome x <
                keyFull req.sort_person_id.isSome r := by
              have := hdec
              rwa [decide_eq_true_eq] at this
            have hup : afterO c r = true := afterO_upward db req c hok x r hxS
              hrS (List.mem_filter.1 hxmem).2 hkey
            rw [hup]
            show afterB (cursorForBase req.sort_person_id x) r = true
            exact hbr.2 hkey
        rw [h1, ← List.filter_filter, ← hR]
        have hRpair : R.Pairwise (fun a b =>
            keyFull req.sort_person_id.isSome a <
              keyFull req.sort_person_id.isSome b) :=
          List.Pairwise.sublist hRsub (fullFetch_pairwise db req hnd)
        have := filter_key_lt_eq_drop R hRpair ⟨req.limit.toNat, hxR⟩
        simpa using this
      rw [List.map_append]
      rw [ih (some (cursorForBase req.sort_person_id x))
        (cursorForBase_matches req.sort_person_id x)
        (Or.inr ⟨x, hxsome, rfl⟩)
        (by rw [hnextfilter, List.length_drop]; omega)]
      rw [hnextfilter]
      rw [entries_ids db req (R.take req.limit.toNat)
        (fun p hp => hRsub.subset ((List.take_sublist _ _).subset hp))]
      rw [skipChunks_long (show req.limit.toNat < R.length from hlong)]
      rw [List.map_append]
    · -- short window: final page
      have htkR : R.take (req.limit.toNat + 1) = R :=
        List.take_of_length_le (by omega)
      have htkR2 : (R.take (req.limit.toNat + 1)).take req.limit.toNat =
          R := by
        rw [htkR]
        exact List.take_of_length_le (by omega)
      have hdrop : (R.take (req.limit.toNat + 1)).drop req.limit.toNat = [] := by
        rw [htkR]
        exact List.drop_eq_nil_of_le (by omega)
      rw [htkR2, hdrop]
      show ((R.map (fun p =>
          entryOfBlock (blockOf db req.threshold req.top_n p))) ++
        ([] : List ImageEntry)).map (fun e => e.id) =
        (skipChunks req.limit.toNat R).map (fun r => r.id)
      rw [List.append_nil, skipChunks_short hshort]
      exact entries_ids db req R (fun p hp => hRsub.subset hp)

theorem filter_afterO_none {l : List BaseRow} : l.filter (afterO none) = l :=
  List.filter_eq_self.2 (fun _ _ => rfl)

theorem skipChunksAux_sublist {α : Type} (n : Nat) :
    ∀ (fuel : Nat) (l : List α), (skipChunksAux n fuel l).Sublist l := by
  intro fuel
  induction fuel with
  | zero => intro l; exact List.Sublist.refl l
  | succ f ih =>
    intro l
    show (if l.length ≤ n then l else
      l.take n ++ skipChunksAux n f (l.drop (n + 1))).Sublist l
    by_cases h : l.length ≤ n
    · rw [if_pos h]
    · rw [if_neg h]
      have h1 : (l.take n ++ skipChunksAux n f (l.drop (n + 1))).Sublist
          (l.take n ++ l.drop n) := by
        refine List.Sublist.append (List.Sublist.refl _) ?_
        refine (ih (l.drop (n + 1))).trans ?_
        have hd : l.drop (n + 1) = List.drop 1 (l.drop n) := by
          rw [List.drop_drop]
        rw [hd]
        exact List.drop_sublist 1 (l.drop n)
      rw [List.take_append_drop] at h1
      exact h1

theorem skipChunks_sublist {α : Type} (n : Nat) (l : List α) :
    (skipChunks n l).Sublist l := skipChunksAux_sublist n l.length l

/-- The cursorless page with a limit at least the number of eligible images
is exactly the full fetch: `fullFetch` is the engine's own unpaginated
evaluation, not a parallel definition. -/
theorem get_images_unpaginated (db : Db) (req : Request)
    (hnd : (db.images.map (·.id)).Nodup) (hlim : 1 ≤ req.limit)
    (hbig : (fullFetch db req).length ≤ req.limit.toNat)
    (hcur : req.cursor = none) :
    ∃ pg, get_images db req = .ok pg ∧
      pg.images.map (·.id) = (fullFetch db req).map (·.id) ∧
      pg.next_cursor = none := by
  have h := get_images_spec db req none (by rfl) hnd hlim
  rw [show ({ req with cursor := none } : Request) = req from by
    cases req; simp_all] at h
  rw [filter_afterO_none] at h
  have e1 : (fullFetch db req).take (req.limit.toNat + 1) = fullFetch db req :=
    List.take_of_length_le (by omega)
  have e2 : (fullFetch db req).take req.limit.toNat = fullFetch db req :=
    List.take_of_length_le (by omega)
  have e3 : (fullFetch db req).drop req.limit.toNat = [] :=
    List.drop_eq_nil_of_le (by omega)
  rw [e1, e2, e3] at h
  refine ⟨_, h, ?_, rfl⟩
  exact entries_ids db req (fullFetch db req) (fun p hp => hp)

/-! ## Concrete fixtures -/

/-- A displayable image with no metadata beyond id and timestamp. -/
def exImage (i : Nat) (ca : Int) : Image :=
  { id := i, created_at := ca, filename := none, source_url := some "u",
    width := none, height := none }

/-- Three displayable images, no faces, no persons. -/
def exDb3 : Db :=
  { images := [exImage 1 30, exImage 2 20, exImage 3 10], faces := [],
    persons := [], dist := fun _ _ => 0 }

/-- A one-image page request, newest mode, no search. -/
def exReq1 : Request := { limit := 1 }

/-- C1 counterexample: with three eligible images and `limit = 1`, feeding
each returned cursor into the next call yields image ids `[1, 3]`, while the
single unpaginated evaluation yields `[1, 2, 3]`: image 2 — the trimmed
`limit + 1`-th candidate whose sort-key fields became the cursor — is
skipped, because the SQL cursor predicate (lines 195-200) selects rows
strictly after the cursor row.  The claim as stated is therefore false. -/
theorem C1_counterexample_drain_skips :
    (exDb3.images.map (·.id)).Nodup ∧ (1 : Int) ≤ exReq1.limit ∧
    (drainPages exDb3 exReq1 4 none).map (·.id) = [1, 3] ∧
    (fullFetch exDb3 exReq1).map (·.id) = [1, 2, 3] ∧
    (drainPages exDb3 exReq1 4 none).map (·.id) ≠
      (fullFetch exDb3 exReq1).map (·.id) := by decide

/-- C1 (amended): draining the paginated engine — feeding each page's
returned cursor into the next call until the cursor is absent and
concatenating the pages — yields the id sequence of the single unpaginated
evaluation under the same ordering and filter with exactly the trimmed
`(limit+1)`-th candidate of each full page removed (`skipChunks`); in
particular no image id occurs twice.  The no-skip form of the claim fails
because the next cursor is built from the trimmed row (SQL lines 78-79,
spec §4.1 step 5) while the cursor predicate is strictly-after. -/
theorem C1_drain_eq_skipChunks (db : Db) (req : Request)
    (hnd : (db.images.map (·.id)).Nodup) (hlim : 1 ≤ req.limit)
    (fuel : Nat) (hfuel : (fullFetch db req).length ≤ fuel) :
    (drainPages db req fuel none).map (·.id) =
      (skipChunks req.limit.toNat (fullFetch db req)).map (·.id) ∧
    ((drainPages db req fuel none).map (·.id)).Nodup := by
  have h := drainPages_invariant db req hnd hlim fuel none rfl (Or.inl rfl)
    (by rw [filter_afterO_none]; exact hfuel)
  rw [filter_afterO_none] at h
  refine ⟨h, ?_⟩
  rw [h]
  exact List.Nodup.sublist ((skipChunks_sublist _ _).map _)
    (fullFetch_ids_nodup db req hnd)

/-- Witness for the amended C1 at a concrete database. -/
theorem C1_drain_eq_skipChunks_witness :
    (exDb3.images.map (·.id)).Nodup ∧ (1 : Int) ≤ exReq1.limit ∧
    (fullFetch exDb3 exReq1).length ≤ 4 ∧
    ((drainPages exDb3 exReq1 4 none).map (·.id) =
      (skipChunks exReq1.limit.toNat (fullFetch exDb3 exReq1)).map (·.id) ∧
    ((drainPages exDb3 exReq1 4 none).map (·.id)).Nodup) :=
  ⟨by decide, by decide, by decide,
    C1_drain_eq_skipChunks exDb3 exReq1 (by decide) (by decide) 4 (by decide)⟩

/-- C2: the engine fetches `limit + 1` candidate images; when exactly
`limit + 1` distinct images come back the last is trimmed from the page and
the next cursor is serialized from that trimmed image's sort-key fields
under the active mode's field names (`cursorForBase`); with at most `limit`
images the next cursor is absent. -/
theorem C2_limit_plus_one_protocol (db : Db) (req : Request)
    (hmode : cursorMatchesMode req.cursor req.sort_person_id = true)
    (hnd : (db.images.map (·.id)).Nodup) (hlim : 1 ≤ req.limit) :
    ∃ W, paginated db (toParams req) = some W ∧
      W.length ≤ req.limit.toNat + 1 ∧
      ∃ pg, get_images db req = .ok pg ∧
        (W.length = req.limit.toNat + 1 →
          pg.images.map (·.id) = (W.take req.limit.toNat).map (·.id) ∧
          ∃ h : W ≠ [], pg.next_cursor =
            some (cursorForBase req.sort_person_id (W.getLast h))) ∧
        (W.length ≤ req.limit.toNat →
          pg.images.map (·.id) = W.map (·.id) ∧ pg.next_cursor = none) := by
  have hreq : ({ req with cursor := req.cursor } : Request) = req := rfl
  have hpag := paginated_eq_window db req req.cursor hmode hnd hlim
  rw [hreq] at hpag
  have hspec := get_images_spec db req req.cursor hmode hnd hlim
  rw [hreq] at hspec
  set W := ((fullFetch db req).filter (afterO req.cursor)).take
    (req.limit.toNat + 1) with hWdef
  have hWsub : W.Sublist (fullFetch db req) :=
    (List.take_sublist _ _).trans (List.filter_sublist _)
  refine ⟨W, hpag, List.length_take_le _ _, _, hspec, ?_, ?_⟩
  · intro hfull
    constructor
    · exact entries_ids db req (W.take req.limit.toNat)
        (fun p hp => hWsub.subset ((List.take_sublist _ _).subset hp))
    · have hne : W ≠ [] := by
        intro hcon
        rw [hcon] at hfull
        simp at hfull
      refine ⟨hne, ?_⟩
      have hxlt : req.limit.toNat < W.length := by omega
      show (W.drop req.limit.toNat).head?.map
        (cursorForBase req.sort_person_id) = _
      rw [List.drop_eq_getElem_cons hxlt]
      rw [List.head?_cons, Option.map_some']
      have hlast : W.getLast hne = W[req.limit.toNat] := by
        rw [List.getLast_eq_getElem]
        congr 1
        omega
      rw [hlast]
  · intro hshort
    have e2 : W.take req.limit.toNat = W := List.take_of_length_le hshort
    have e3 : W.drop req.limit.toNat = [] := List.drop_eq_nil_of_le hshort
    constructor
    · show (((W.take req.limit.toNat).map (fun p =>
        entryOfBlock (blockOf db req.threshold req.top_n p))).map (·.id)) =
        W.map (·.id)
      rw [e2]
      exact entries_ids db req W (fun p hp => hWsub.subset hp)
    · show (W.drop req.limit.toNat).head?.map
        (cursorForBase req.sort_person_id) = none
      rw [e3]
      rfl

/-- Witness for C2 at a concrete database. -/
theorem C2_limit_plus_one_protocol_witness :
    cursorMatchesMode exReq1.cursor exReq1.sort_person_id = true ∧
    (exDb3.images.map (·.id)).Nodup ∧ (1 : Int) ≤ exReq1.limit ∧
    (∃ W, paginated exDb3 (toParams exReq1) = some W ∧
      W.length ≤ exReq1.limit.toNat + 1 ∧
      ∃ pg, get_images exDb3 exReq1 = .ok pg ∧
        (W.length = exReq1.limit.toNat + 1 →
          pg.images.map (·.id) = (W.take exReq1.limit.toNat).map (·.id) ∧
          ∃ h : W ≠ [], pg.next_cursor =
            some (cursorForBase exReq1.sort_person_id (W.getLast h))) ∧
        (W.length ≤ exReq1.limit.toNat →
          pg.images.map (·.id) = W.map (·.id) ∧ pg.next_cursor = none)) :=
  ⟨by decide, by decide, by decide,
    C2_limit_plus_one_protocol exDb3 exReq1 (by decide) (by decide) (by decide)⟩

/-! ## The person-ranked order, expressed on image ids -/

/-- "Image `i` sorts strictly before image `j` in person-ranked mode":
is-tagged descending (any face assigned to the target person), then minimum
qualifying distance ascending with absent distance last, then id ascending —
computed from the database by the same CTE definitions the SQL uses. -/
def personRankLt (db : Db) (pid : Nat) (threshold : ℚ) (i j : Nat) : Bool :=
  let ti : Bool := (tagged_image_ids db pid).contains (some i)
  let tj : Bool := (tagged_image_ids db pid).contains (some j)
  let di : Option ℚ :=
    match (image_min_distances db pid threshold).find? (fun pr => pr.1 == i) with
    | some pr => some pr.2
    | none => none
  let dj : Option ℚ :=
    match (image_min_distances db pid threshold).find? (fun pr => pr.1 == j) with
    | some pr => some pr.2
    | none => none
  (ti && !tj) || (ti == tj && (ltOptAsc di dj || (di == dj && decide (i < j))))

theorem base_images_fields_person {db : Db} {q : QueryParams} {pid : Nat}
    (hq : q.sort_person_id = some pid) {r : BaseRow}
    (hr : r ∈ base_images db q) :
    r.is_tagged = some (if (tagged_image_ids db pid).contains (some r.id)
        then 1 else 0) ∧
    r.min_distance = (match (image_min_distances db pid q.threshold).find?
        (fun pr => pr.1 == r.id) with
      | some pr => some pr.2
      | none => none) := by
  rcases List.mem_map.1 hr with ⟨i, _, hmk⟩
  subst hmk
  constructor
  · simp [isTaggedCol, hq]
  · simp [minDistanceCol, hq]

theorem keyFull_iff_personRankLt {db : Db} {q : QueryParams} {pid : Nat}
    (hq : q.sort_person_id = some pid) {a b : BaseRow}
    (ha : a ∈ base_images db q) (hb : b ∈ base_images db q) :
    keyFull true a < keyFull true b ↔
      personRankLt db pid q.threshold a.id b.id = true := by
  rw [← rowLt_iff_keyFull]
  rcases base_images_fields_person hq ha with ⟨ha1, ha2⟩
  rcases base_images_fields_person hq hb with ⟨hb1, hb2⟩
  unfold personRankLt
  rw [rowLt]
  simp only [if_true, ha1, hb1, ← ha2, ← hb2, ltOptDesc]
  cases hta : (tagged_image_ids db pid).contains (some a.id) <;>
    cases htb : (tagged_image_ids db pid).contains (some b.id) <;>
      simp [ltOptDesc, ltOptAsc]

/-- C3: in person-ranked mode the returned page is ordered by is-tagged
descending, then minimum qualifying cosine distance ascending with absent
distance last, then id ascending — with the rank attributes computed from
the database exactly as the SQL helper CTEs define them. -/
theorem C3_person_mode_order (db : Db) (req : Request) (pid : Nat)
    (hm : req.sort_person_id = some pid) (hc : req.cursor = none)
    (hnd : (db.images.map (·.id)).Nodup) (hlim : 1 ≤ req.limit) :
    ∃ pg, get_images db req = .ok pg ∧
      (pg.images.map (·.id)).Pairwise
        (fun i j => personRankLt db pid req.threshold i j = true) := by
  have hreq : ({ req with cursor := none } : Request) = req := by
    rw [← hc]
  have hspec := get_images_spec db req none rfl hnd hlim
  rw [hreq] at hspec
  refine ⟨_, hspec, ?_⟩
  set W' := (((fullFetch db req).filter (afterO none)).take
    (req.limit.toNat + 1)).take req.limit.toNat with hW'
  have hsub : W'.Sublist (fullFetch db req) :=
    (List.take_sublist _ _).trans ((List.take_sublist _ _).trans
      (List.filter_sublist _))
  show ((W'.map (fun p =>
    entryOfBlock (blockOf db req.threshold req.top_n p))).map (·.id)).Pairwise _
  rw [entries_ids db req W' (fun p hp => hsub.subset hp)]
  rw [List.pairwise_map]
  have hpair : W'.Pairwise (fun a b =>
      keyFull req.sort_person_id.isSome a <
        keyFull req.sort_person_id.isSome b) :=
    List.Pairwise.sublist hsub (fullFetch_pairwise db req hnd)
  rw [hm] at hpair
  simp only [Option.isSome_some] at hpair
  refine List.Pairwise.imp_of_mem (fun ha hb hr => ?_) hpair
  have hqm : (toParams { req with cursor := none }).sort_person_id = some pid := by
    simp [toParams, hm]
  have haB := (sortBy_perm _ _).mem_iff.1 (hsub.subset ha)
  have hbB := (sortBy_perm _ _).mem_iff.1 (hsub.subset hb)
  exact (keyFull_iff_personRankLt hqm haB hbB).1 hr

/-- A detected face fixture. -/
def exFace (fid imgid enc : Nat) (p : Option Nat) : DetectedFace :=
  { id := fid, image_id := some imgid, encoding := enc, person_id := p,
    location_top := 0, location_right := 1, location_bottom := 1,
    location_left := 0 }

/-- Four images: image 1 carries a face tagged to person 1, images 2 and 3
carry faces at distances 0.1 and 0.2 from the reference face, image 4 has no
faces. -/
def exDbP : Db :=
  { images := [exImage 4 40, exImage 3 30, exImage 2 20, exImage 1 10]
    faces := [exFace 10 1 100 (some 1), exFace 11 2 101 none,
      exFace 12 3 102 none]
    persons := [⟨1, "P"⟩]
    dist := fun a b =>
      match a, b with
      | 100, 100 => 0
      | 101, 100 => mkRat 1 10
      | 102, 100 => mkRat 2 10
      | _, _ => 1 }

/-- A person-ranked request for person 1. -/
def exReqP : Request := { limit := 10, sort_person_id := some 1 }

/-- Witness for C3 at a concrete database (page order: tagged image 1, then
images 2 and 3 by ascending distance, then the unmatched image 4). -/
theorem C3_person_mode_order_witness :
    exReqP.sort_person_id = some 1 ∧ exReqP.cursor = none ∧
    (exDbP.images.map (·.id)).Nodup ∧ (1 : Int) ≤ exReqP.limit ∧
    (∃ pg, get_images exDbP exReqP = .ok pg ∧
      (pg.images.map (·.id)).Pairwise
        (fun i j => personRankLt exDbP 1 exReqP.threshold i j = true)) :=
  ⟨rfl, rfl, by decide, by decide,
    C3_person_mode_order exDbP exReqP 1 rfl rfl (by decide) (by decide)⟩

theorem fullFetch_mem_src (db : Db) (req : Request) (p : BaseRow)
    (hp : p ∈ fullFetch db req) :
    ∃ i ∈ db.images, i.id = p.id ∧ i.created_at = p.created_at := by
  have hb : p ∈ base_images db (toParams { req with cursor := none }) :=
    (sortBy_perm _ _).mem_iff.1 hp
  rcases List.mem_map.1 hb with ⟨i, hi, hmk⟩
  exact ⟨i, List.mem_filter.1 hi |>.1, by rw [← hmk], by rw [← hmk]⟩

/-- C4: in newest mode, a page fetched with a cursor never contains an image
whose creation timestamp is strictly newer than the cursor's timestamp. -/
theorem C4_cursor_excludes_newer (db : Db) (req : Request) (t : Int)
    (cid : Nat) (img : Image)
    (hm : req.sort_person_id = none) (hc : req.cursor = some (.newest t cid))
    (hnd : (db.images.map (·.id)).Nodup) (hlim : 1 ≤ req.limit)
    (himg : img ∈ db.images) (hnew : t < img.created_at) :
    ∀ pg, get_images db req = .ok pg → img.id ∉ pg.images.map (·.id) := by
  intro pg hpg hmem
  have hreq : ({ req with cursor := some (.newest t cid) } : Request) = req := by
    rw [← hc]
  have hspec := get_images_spec db req (some (.newest t cid))
    (by rw [hm]; rfl) hnd hlim
  rw [hreq] at hspec
  rw [hspec] at hpg
  injection hpg with hpg
  subst hpg
  set W' := (((fullFetch db req).filter (afterO (some (.newest t cid)))).take
    (req.limit.toNat + 1)).take req.limit.toNat with hW'
  have hsub : W'.Sublist ((fullFetch db req).filter
      (afterO (some (.newest t cid)))) :=
    (List.take_sublist _ _).trans (List.take_sublist _ _)
  have hsub2 : W'.Sublist (fullFetch db req) :=
    hsub.trans (List.filter_sublist _)
  have hmem2 : img.id ∈ W'.map (·.id) := by
    have h0 : img.id ∈ (W'.map (fun p =>
        entryOfBlock (blockOf db req.threshold req.top_n p))).map (·.id) :=
      hmem
    rwa [entries_ids db req W' (fun p hp => hsub2.subset hp)] at h0
  rcases List.mem_map.1 hmem2 with ⟨p, hpW, hpid⟩
  have hpF := hsub.subset hpW
  rcases List.mem_filter.1 hpF with ⟨hpS, hafter⟩
  have hle : p.created_at ≤ t := by
    simp only [afterO, afterB, Bool.or_eq_true, Bool.and_eq_true,
      decide_eq_true_eq] at hafter
    omega
  rcases fullFetch_mem_src db req p hpS with ⟨i, hiMem, hiId, hiCa⟩
  have hieq : i = img :=
    List.inj_on_of_nodup_map hnd hiMem himg (by rw [hiId, hpid])
  rw [← hieq] at hnew
  omega

/-- A newest-mode request holding the cursor issued after image 1 was
trimmed. -/
def exReqC4 : Request := { limit := 1, cursor := some (.newest 20 2) }

/-- Witness for C4 at a concrete database: image 1 (timestamp 30, newer than
the cursor timestamp 20) is absent from the cursor page. -/
theorem C4_cursor_excludes_newer_witness :
    exReqC4.sort_person_id = none ∧
    exReqC4.cursor = some (.newest 20 2) ∧
    (exDb3.images.map (·.id)).Nodup ∧ (1 : Int) ≤ exReqC4.limit ∧
    exImage 1 30 ∈ exDb3.images ∧ (20 : Int) < (exImage 1 30).created_at ∧
    (∀ pg, get_images exDb3 exReqC4 = .ok pg →
      (exImage 1 30).id ∉ pg.images.map (·.id)) :=
  ⟨rfl, rfl, by decide, by decide, by decide, by decide,
    C4_cursor_excludes_newer exDb3 exReqC4 20 2 (exImage 1 30) rfl rfl
      (by decide) (by decide) (by decide) (by decide)⟩

/-- C6: a cursor whose field set does not match the requested sort mode — a
newest-shape cursor under person mode, or a person-shape cursor under newest
mode — is rejected as an invalid-input error, not reinterpreted. -/
theorem C6_mode_isolation (db : Db) (req : Request)
    (hmis : ((∃ ca cid, req.cursor = some (.newest ca cid)) ∧
        req.sort_person_id.isSome = true) ∨
      ((∃ t md cid, req.cursor = some (.person t md cid)) ∧
        req.sort_person_id = none)) :
    get_images db req = .error (.invalidInput "cursor does not match sort mode") := by
  have hfalse : cursorMatchesMode req.cursor req.sort_person_id = false := by
    rcases hmis with ⟨⟨ca, cid, hc⟩, hs⟩ | ⟨⟨t, md, cid, hc⟩, hs⟩
    · rcases Option.isSome_iff_exists.1 hs with ⟨pid, hpid⟩
      rw [hc, hpid]
      rfl
    · rw [hc, hs]
      rfl
  unfold get_images
  rw [if_pos (by simp [hfalse])]

/-- A person-mode request carrying a newest-shape cursor. -/
def exReqC6 : Request :=
  { limit := 1, cursor := some (.newest 0 0), sort_person_id := some 1 }

/-- Witness for C6 at a concrete request. -/
theorem C6_mode_isolation_witness :
    (((∃ ca cid, exReqC6.cursor = some (.newest ca cid)) ∧
        exReqC6.sort_person_id.isSome = true) ∨
      ((∃ t md cid, exReqC6.cursor = some (.person t md cid)) ∧
        exReqC6.sort_person_id = none)) ∧
    get_images exDbP exReqC6 =
      .error (.invalidInput "cursor does not match sort mode") :=
  ⟨Or.inl ⟨⟨0, 0, rfl⟩, rfl⟩,
    C6_mode_isolation exDbP exReqC6 (Or.inl ⟨⟨0, 0, rfl⟩, rfl⟩)⟩

/-- C7: a request with a zero or negative limit is rejected with an
input-validation error; no page — not even an empty one — is returned, and
the limit is never clamped. -/
theorem C7_nonpositive_limit_rejected (db : Db) (req : Request)
    (hlim : req.limit ≤ 0) :
    ∃ msg, get_images db req = .error (.invalidInput msg) := by
  unfold get_images
  by_cases hmode : cursorMatchesMode req.cursor req.sort_person_id = true
  · refine ⟨"limit must be a positive integer", ?_⟩
    rw [if_neg (by simp [hmode]), if_pos hlim]
  · refine ⟨"cursor does not match sort mode", ?_⟩
    rw [if_pos (by simpa using hmode)]

/-- A request with limit zero. -/
def exReqC7 : Request := { limit := 0 }

/-- Witness for C7 at a concrete request. -/
theorem C7_nonpositive_limit_rejected_witness :
    exReqC7.limit ≤ 0 ∧
    ∃ msg, get_images exDb3 exReqC7 = .error (.invalidInput msg) :=
  ⟨by decide, C7_nonpositive_limit_rejected exDb3 exReqC7 (by decide)⟩

/-- C8: the engine is a pure function of the database snapshot and the
request: two evaluations on equal states and equal requests return equal
responses — the same images in the same order, the same nested faces and
matches, and the same next cursor.  (Where the SQL leaves an order
underdetermined — ties in the top-N match `ORDER BY distance LIMIT n` and
the relative order of one image's denormalized rows — the embedding fixes a
deterministic choice, as noted in the module header.) -/
theorem C8_idempotent (db₁ db₂ : Db) (req₁ req₂ : Request)
    (hdb : db₁ = db₂) (hreq : req₁ = req₂) :
    get_images db₁ req₁ = get_images db₂ req₂ := by
  rw [hdb, hreq]

/-- Witness for C8 at a concrete database and request. -/
theorem C8_idempotent_witness :
    exDbP = exDbP ∧ exReqP = exReqP ∧
    get_images exDbP exReqP = get_images exDbP exReqP :=
  ⟨rfl, rfl, C8_idempotent exDbP exDbP exReqP exReqP rfl rfl⟩

/-! ## The self-match property of the lateral match subquery -/

theorem minQ?_mem : ∀ {l : List ℚ} {m : ℚ}, minQ? l = some m → m ∈ l := by
  intro l
  induction l with
  | nil => intro m h; exact absurd h (by simp [minQ?])
  | cons x xs ih =>
    intro m h
    rw [minQ?] at h
    rcases hx : minQ? xs with - | m'
    · rw [hx] at h
      simp only [Option.some.injEq] at h
      simp [← h]
    · rw [hx] at h
      simp only [Option.some.injEq] at h
      rcases min_cases x m' with ⟨hmin, -⟩ | ⟨hmin, -⟩
      · rw [hmin] at h
        simp [← h]
      · rw [hmin] at h
        exact List.mem_cons_of_mem x (ih (h ▸ hx))

theorem minQ?_le : ∀ {l : List ℚ} {m : ℚ}, minQ? l = some m →
    ∀ x ∈ l, m ≤ x := by
  intro l
  induction l with
  | nil => intro m _ x hx; exact absurd hx (List.not_mem_nil x)
  | cons y ys ih =>
    intro m h x hx
    rw [minQ?] at h
    rcases hy : minQ? ys with - | m'
    · rw [hy] at h
      simp only [Option.some.injEq] at h
      have hnil : ys = [] := by
        cases ys with
        | nil => rfl
        | cons a as =>
          rw [minQ?] at hy
          rcases hz : minQ? as with - | m' <;> rw [hz] at hy <;> simp at hy
      subst hnil
      rcases List.mem_singleton.1 hx with rfl
      exact le_of_eq h.symm
    · rw [hy] at h
      simp only [Option.some.injEq] at h
      subst h
      rcases List.mem_cons.1 hx with rfl | hx
      · exact min_le_left _ _
      · exact le_trans (min_le_right _ _) (ih hy x hx)

theorem minQ?_isSome_of_mem {l : List ℚ} {x : ℚ} (hx : x ∈ l) :
    (minQ? l).isSome = true := by
  cases l with
  | nil => exact absurd hx (List.not_mem_nil x)
  | cons y ys =>
    rw [minQ?]
    rcases minQ? ys with - | m <;> rfl

/-- A face assigned to person `p` makes that person's group in the lateral
subquery nonempty with minimum distance exactly zero, provided the distance
table is reflexive-zero and nonnegative and the threshold is positive. -/
theorem personGroupDist_self (db : Db) (threshold : ℚ) (p : Person)
    (f : DetectedFace) (hf : f ∈ db.faces) (hfp : f.person_id = some p.id)
    (hself : db.dist f.encoding f.encoding = 0)
    (hnn : ∀ e₁ e₂, 0 ≤ db.dist e₁ e₂) (hθ : 0 < threshold) :
    personGroupDist db threshold f.encoding p = some 0 := by
  unfold personGroupDist
  have hmem : (0 : ℚ) ∈ (db.faces.filter (fun ref =>
      ref.person_id == some p.id &&
        decide (db.dist f.encoding ref.encoding < threshold))).map
      (fun ref => db.dist f.encoding ref.encoding) := by
    refine List.mem_map.2 ⟨f, ?_, hself⟩
    refine List.mem_filter.2 ⟨hf, ?_⟩
    rw [hself, hfp]
    simp [hθ]
  rcases Option.isSome_iff_exists.1 (minQ?_isSome_of_mem hmem) with ⟨m, hm⟩
  rw [hm]
  have h1 := minQ?_le hm 0 hmem
  have h2 := minQ?_mem hm
  rcases List.mem_map.1 h2 with ⟨ref, -, href⟩
  have h3 : 0 ≤ m := href ▸ hnn f.encoding ref.encoding
  have : m = 0 := le_antisymm h1 h3
  rw [this]


/-- A database in which four persons all have a reference face with the same
encoding: every person matches the tagged face at distance 0. -/
def exDbC5 : Db :=
  { images := []
    faces := [exFace 20 1 0 (some 4), exFace 21 1 0 (some 1),
      exFace 22 1 0 (some 2), exFace 23 1 0 (some 3)]
    persons := [⟨1, "Q1"⟩, ⟨2, "Q2"⟩, ⟨3, "Q3"⟩, ⟨4, "P"⟩]
    dist := fun _ _ => 0 }

/-- C5 counterexample: face 20 is assigned to person 4; the distance table
(four identical encodings) is reflexively zero and nonnegative; yet with the
engine defaults — threshold 0.5 and top-N 3 — the face's match list contains
no entry for person 4 at all: three other persons tie at distance 0 and fill
the top-N cut.  The claim as universally stated is therefore false. -/
theorem C5_counterexample_topN_crowds_out :
    exFace 20 1 0 (some 4) ∈ exDbC5.faces ∧
    (⟨4, "P"⟩ : Person) ∈ exDbC5.persons ∧
    exDbC5.dist 0 0 = 0 ∧ (0 : ℚ) < mkRat 1 2 ∧
    (matchesFor exDbC5 (mkRat 1 2) 3 0).map (·.person_id) = [1, 2, 3] ∧
    ¬ (⟨4, "P", 0⟩ : MatchRow) ∈ matchesFor exDbC5 (mkRat 1 2) 3 0 := by
  refine ⟨by decide, by decide, rfl, by decide, by decide, ?_⟩
  intro hcon
  have h4 : (4 : Nat) ∈ (matchesFor exDbC5 (mkRat 1 2) 3 0).map (·.person_id) :=
    List.mem_map_of_mem _ hcon
  rw [show (matchesFor exDbC5 (mkRat 1 2) 3 0).map (·.person_id) = [1, 2, 3]
    from by decide] at h4
  simp at h4

theorem countP_zero_entries (db : Db) (threshold : ℚ) (enc : Nat) :
    ∀ ps : List Person,
      (ps.filterMap (fun q => (personGroupDist db threshold enc q).map
        (fun d => (⟨q.id, q.name, d⟩ : MatchRow)))).countP
          (fun m => decide (m.distance = 0)) =
        ps.countP (fun q =>
          decide (personGroupDist db threshold enc q = some 0)) := by
  intro ps
  induction ps with
  | nil => rfl
  | cons q rest ih =>
    rcases hd : personGroupDist db threshold enc q with - | d
    · simp [List.filterMap_cons, List.countP_cons, hd, ih]
    · by_cases h0 : d = 0 <;>
        simp [List.filterMap_cons, List.countP_cons, hd, ih, h0]

/-- C5 (amended): a face assigned to person P reports a match to P at
distance 0, provided the distance of an encoding to itself is 0 and
distances are nonnegative (both true of cosine distance), the threshold is
positive, and at most `top_n` persons in total (including P) have a
zero-distance qualifying match to the face — otherwise the ties at distance
0 can crowd P out of the top-N cut. -/
theorem C5_self_match (db : Db) (threshold : ℚ) (top_n : Nat) (p : Person)
    (f : DetectedFace) (hp : p ∈ db.persons) (hf : f ∈ db.faces)
    (hfp : f.person_id = some p.id)
    (hself : db.dist f.encoding f.encoding = 0)
    (hnn : ∀ e₁ e₂, 0 ≤ db.dist e₁ e₂) (hθ : 0 < threshold)
    (hcount : db.persons.countP (fun q =>
      decide (personGroupDist db threshold f.encoding q = some 0)) ≤ top_n) :
    (⟨p.id, p.name, 0⟩ : MatchRow) ∈ matchesFor db threshold top_n f.encoding := by
  have hdle : ∀ a b : MatchRow,
      (decide (a.distance ≤ b.distance)) = true ↔
        MatchRow.distance a ≤ MatchRow.distance b := by
    intro a b
    rw [decide_eq_true_eq]
  set entries := db.persons.filterMap (fun q =>
    (personGroupDist db threshold f.encoding q).map
      (fun d => (⟨q.id, q.name, d⟩ : MatchRow))) with hentries
  have he₀ : (⟨p.id, p.name, 0⟩ : MatchRow) ∈ entries := by
    refine List.mem_filterMap.2 ⟨p, hp, ?_⟩
    show (personGroupDist db threshold f.encoding p).map
      (fun d => (⟨p.id, p.name, d⟩ : MatchRow)) = some ⟨p.id, p.name, 0⟩
    rw [personGroupDist_self db threshold p f hf hfp hself hnn hθ]
    rfl
  have hnnE : ∀ e ∈ entries, (0 : ℚ) ≤ e.distance := by
    intro e he
    rcases List.mem_filterMap.1 he with ⟨q, -, hq⟩
    have hq2 : (personGroupDist db threshold f.encoding q).map
        (fun d => (⟨q.id, q.name, d⟩ : MatchRow)) = some e := hq
    rcases hd : personGroupDist db threshold f.encoding q with - | d
    · rw [hd] at hq2
      exact absurd hq2 (by simp)
    · rw [hd, Option.map_some'] at hq2
      rcases Option.some.inj hq2 with rfl
      show (0 : ℚ) ≤ d
      unfold personGroupDist at hd
      rcases List.mem_map.1 (minQ?_mem hd) with ⟨ref, -, href⟩
      exact href ▸ hnn f.encoding ref.encoding
  set sorted := sortBy (fun m₁ m₂ => decide (m₁.distance ≤ m₂.distance))
    entries with hsorted
  have hperm : sorted.Perm entries := sortBy_perm _ _
  have hpair : sorted.Pairwise (fun x y =>
      MatchRow.distance x ≤ MatchRow.distance y) :=
    pairwise_sortBy hdle entries
  have he₀s : (⟨p.id, p.name, 0⟩ : MatchRow) ∈ sorted := hperm.mem_iff.2 he₀
  rcases List.getElem_of_mem he₀s with ⟨k, hk, hke⟩
  have hzero : ∀ j (hjl : j < sorted.length), j < k + 1 →
      sorted[j].distance = 0 := by
    intro j hjl hj
    rcases Nat.lt_or_ge j k with hjk | hjk
    · have hle := (List.pairwise_iff_getElem.1 hpair) j k hjl hk hjk
      rw [hke] at hle
      have hge := hnnE sorted[j]
        (hperm.mem_iff.1 (List.getElem_mem _))
      exact le_antisymm hle hge
    · have hjkeq : j = k := by omega
      subst hjkeq
      rw [hke]
  have hcountP : k + 1 ≤ entries.countP (fun m => decide (m.distance = 0)) := by
    have h1 : (sorted.take (k + 1)).countP
        (fun m => decide (m.distance = 0)) = k + 1 := by
      have hlen : (sorted.take (k + 1)).length = k + 1 := by
        rw [List.length_take]
        omega
      rw [List.countP_eq_length.2, hlen]
      intro a ha
      rcases List.getElem_of_mem ha with ⟨j, hj, hja⟩
      have hj2 : j < k + 1 := by omega
      rw [List.getElem_take] at hja
      rw [← hja]
      simpa using hzero j (by omega) hj2
    calc k + 1
        = (sorted.take (k + 1)).countP (fun m => decide (m.distance = 0)) :=
        h1.symm
      _ ≤ sorted.countP (fun m => decide (m.distance = 0)) :=
        (List.take_sublist _ _).countP_le _
      _ = entries.countP (fun m => decide (m.distance = 0)) :=
        hperm.countP_eq _
  have hbridge : entries.countP (fun m => decide (m.distance = 0)) =
      db.persons.countP (fun q =>
        decide (personGroupDist db threshold f.encoding q = some 0)) :=
    countP_zero_entries db threshold f.encoding db.persons
  have hkn : k < top_n := by omega
  show (⟨p.id, p.name, 0⟩ : MatchRow) ∈ sorted.take top_n
  have hklen : k < (sorted.take top_n).length := by
    rw [List.length_take]
    omega
  have hmem := List.getElem_mem hklen
  rw [List.getElem_take, hke] at hmem
  exact hmem

/-- One person with one tagged face. -/
def exDbC5w : Db :=
  { images := [], faces := [exFace 30 1 7 (some 1)], persons := [⟨1, "P"⟩],
    dist := fun _ _ => 0 }

/-- Witness for the amended C5 at a concrete database. -/
theorem C5_self_match_witness :
    (⟨1, "P"⟩ : Person) ∈ exDbC5w.persons ∧
    exFace 30 1 7 (some 1) ∈ exDbC5w.faces ∧
    (exFace 30 1 7 (some 1)).person_id = some (1 : Nat) ∧
    exDbC5w.dist 7 7 = 0 ∧ (∀ e₁ e₂, 0 ≤ exDbC5w.dist e₁ e₂) ∧
    (0 : ℚ) < 1 ∧
    exDbC5w.persons.countP (fun q =>
      decide (personGroupDist exDbC5w 1 7 q = some 0)) ≤ 3 ∧
    (⟨1, "P", 0⟩ : MatchRow) ∈ matchesFor exDbC5w 1 3 7 :=
  ⟨by decide, by decide, rfl, rfl, fun _ _ => le_refl 0, by decide, by decide,
    C5_self_match exDbC5w 1 3 ⟨1, "P"⟩ (exFace 30 1 7 (some 1)) (by decide)
      (by decide) rfl rfl (fun _ _ => le_refl 0) (by decide) (by decide)⟩

/-! ## C9: zero-face images survive the join and group to an empty face list -/

theorem filter_eq_single_of_nodup_map {α : Type} (key : α → Nat) :
    ∀ (l : List α) (i : α), (l.map key).Nodup → i ∈ l →
      l.filter (fun x => key x == key i) = [i] := by
  intro l
  induction l with
  | nil => intro i _ hi; cases hi
  | cons a l ih =>
    intro i hnd hi
    rw [List.map_cons, List.nodup_cons] at hnd
    rcases List.mem_cons.1 hi with rfl | hi
    · rw [List.filter_cons_of_pos (by simp)]
      have hnil : l.filter (fun x => key x == key i) = [] := by
        apply List.filter_eq_nil_iff.2
        intro x hx
        simp only [beq_iff_eq]
        intro hk
        exact hnd.1 (List.mem_map.2 ⟨x, hx, hk⟩)
      rw [hnil]
    · have hne : key a ≠ key i := by
        intro h
        exact hnd.1 (h ▸ List.mem_map.2 ⟨i, hi, rfl⟩)
      rw [List.filter_cons_of_neg (by simp [hne]), ih i hnd.2 hi]

/-- The single denormalized output row with NULL face fields produced by the
`LEFT JOIN detected_face` (SQL lines 265-267) for an image with no faces. -/
def nullFaceRow (p : BaseRow) (i : Image) : OutRow :=
  { image_id := p.id, filename := i.filename, source_url := i.source_url,
    width := i.width, height := i.height, created_at := p.created_at,
    sort_is_tagged := p.is_tagged, sort_min_distance := p.min_distance,
    face_id := none, face_encoding := none, location_top := none,
    location_right := none, location_bottom := none, location_left := none,
    assigned_person_id := none, matched_person_id := none,
    matched_person_name := none, match_distance := none }

theorem rowsForImage_no_faces (db : Db) (threshold : ℚ) (top_n : Nat)
    (p : BaseRow) (i : Image)
    (hnf : db.faces.filter (fun f => f.image_id == some i.id) = []) :
    rowsForImage db threshold top_n p i = [nullFaceRow p i] := by
  unfold rowsForImage
  rw [hnf]
  rfl

theorem blockOf_no_faces (db : Db) (threshold : ℚ) (top_n : Nat)
    (p : BaseRow) (i : Image) (hi : i ∈ db.images) (hid : i.id = p.id)
    (hnd : (db.images.map (·.id)).Nodup)
    (hnf : db.faces.filter (fun f => f.image_id == some i.id) = []) :
    blockOf db threshold top_n p = [nullFaceRow p i] := by
  have hfilter : db.images.filter (fun x => x.id == p.id) = [i] := by
    rw [← hid]
    exact filter_eq_single_of_nodup_map (fun x => x.id) db.images i hnd hi
  unfold blockOf
  rw [hfilter, List.flatMap_cons, List.flatMap_nil, List.append_nil,
    rowsForImage_no_faces db threshold top_n p i hnf]

theorem entryOfBlock_nullFaceRow (p : BaseRow) (i : Image) :
    entryOfBlock [nullFaceRow p i] =
      { id := p.id, filename := i.filename, source_url := i.source_url,
        width := i.width, height := i.height, created_at := p.created_at,
        faces := [] } := rfl

/-- C9: an image selected onto the requested page that has zero detected
faces is not dropped: the final join emits it as the single denormalized
row with NULL face fields, and the grouped page contains an image entry for
it with an empty face sequence. -/
theorem C9_zero_face_entry (db : Db) (req : Request) (pg : PageResponse)
    (hmode : cursorMatchesMode req.cursor req.sort_person_id = true)
    (hnd : (db.images.map (fun i => i.id)).Nodup) (hlim : 1 ≤ req.limit)
    (hpg : get_images db req = .ok pg)
    (p : BaseRow)
    (hp : p ∈ ((((fullFetch db req).filter (afterO req.cursor)).take
      (req.limit.toNat + 1)).take req.limit.toNat))
    (i : Image) (hi : i ∈ db.images) (hid : i.id = p.id)
    (hnf : db.faces.filter (fun f => f.image_id == some i.id) = []) :
    blockOf db req.threshold req.top_n p = [nullFaceRow p i] ∧
    ({ id := p.id, filename := i.filename, source_url := i.source_url,
       width := i.width, height := i.height, created_at := p.created_at,
       faces := [] } : ImageEntry) ∈ pg.images := by
  have hblock := blockOf_no_faces db req.threshold req.top_n p i hi hid hnd hnf
  refine ⟨hblock, ?_⟩
  have hspec : get_images db req = _ :=
    get_images_spec db req req.cursor hmode hnd hlim
  have heq := hpg.symm.trans hspec
  injection heq with heq
  subst heq
  refine List.mem_map.2 ⟨p, hp, ?_⟩
  rw [hblock]
  exact entryOfBlock_nullFaceRow p i

/-- Witness: in `exDb3` (no faces at all), image 1 is selected onto the first
one-image page and appears as an entry with an empty face sequence. -/
theorem C9_zero_face_entry_witness :
    cursorMatchesMode exReq1.cursor exReq1.sort_person_id = true ∧
    (exDb3.images.map (fun i => i.id)).Nodup ∧ (1 : Int) ≤ exReq1.limit ∧
    get_images exDb3 exReq1 =
      .ok { images := [{ id := 1, filename := none, source_url := some "u",
                         width := none, height := none, created_at := 30,
                         faces := [] }],
            next_cursor := some (.newest 20 2) } ∧
    (⟨1, 30, none, none⟩ : BaseRow) ∈
      ((((fullFetch exDb3 exReq1).filter (afterO exReq1.cursor)).take
        (exReq1.limit.toNat + 1)).take exReq1.limit.toNat) ∧
    exImage 1 30 ∈ exDb3.images ∧ (exImage 1 30).id = (1 : Nat) ∧
    exDb3.faces.filter (fun f => f.image_id == some (exImage 1 30).id) = [] ∧
    (blockOf exDb3 exReq1.threshold exReq1.top_n ⟨1, 30, none, none⟩ =
      [nullFaceRow ⟨1, 30, none, none⟩ (exImage 1 30)] ∧
    ({ id := 1, filename := none, source_url := some "u", width := none,
       height := none, created_at := 30, faces := [] } : ImageEntry) ∈
      ({ images := [{ id := 1, filename := none, source_url := some "u",
                      width := none, height := none, created_at := 30,
                      faces := [] }],
         next_cursor := some (.newest 20 2) } : PageResponse).images) :=
  ⟨by decide, by decide, by decide, rfl, by decide, by decide, rfl, rfl,
    C9_zero_face_entry exDb3 exReq1
      { images := [{ id := 1, filename := none, source_url := some "u",
                     width := none, height := none, created_at := 30,
                     faces := [] }],
        next_cursor := some (.newest 20 2) }
      (by decide) (by decide) (by decide) rfl ⟨1, 30, none, none⟩
      (by decide) (exImage 1 30) (by decide) rfl rfl⟩

/-! ## C10: the paginated row set versus the legacy unpaginated function -/

theorem legacyRowsForFace_fields (db : Db) (threshold : ℚ) (top_n : Nat)
    (i : Image) (f : DetectedFace) :
    ∀ lr ∈ legacyRowsForFace db threshold top_n i f,
      lr.image_id = i.id ∧ lr.source_url = i.source_url := by
  intro lr hlr
  unfold legacyRowsForFace at hlr
  rcases hms : matchesFor db threshold top_n f.encoding with - | ⟨m, ms⟩ <;>
    rw [hms] at hlr
  · simp only [List.mem_singleton] at hlr
    subst hlr
    exact ⟨rfl, rfl⟩
  · rcases List.mem_map.1 hlr with ⟨m', _, hm'⟩
    subst hm'
    exact ⟨rfl, rfl⟩

theorem legacyRowsForImage_fields (db : Db) (threshold : ℚ) (top_n : Nat)
    (i : Image) :
    ∀ lr ∈ legacyRowsForImage db threshold top_n i,
      lr.image_id = i.id ∧ lr.source_url = i.source_url := by
  intro lr hlr
  unfold legacyRowsForImage at hlr
  rcases hfs : db.faces.filter (fun f => f.image_id == some i.id) with - | ⟨f, fs⟩ <;>
    rw [hfs] at hlr
  · simp only [List.mem_singleton] at hlr
    subst hlr
    exact ⟨rfl, rfl⟩
  · rcases List.mem_flatMap.1 hlr with ⟨f', _, hf'⟩
    exact legacyRowsForFace_fields db threshold top_n i f' lr hf'

/-- Projecting the paginated face rows onto the legacy column set gives
exactly the legacy face rows: the two lateral joins are the same query. -/
theorem rowsForFace_toLegacy (db : Db) (threshold : ℚ) (top_n : Nat)
    (p : BaseRow) (i : Image) (f : DetectedFace) (hid : p.id = i.id) :
    (rowsForFace db threshold top_n p i f).map OutRow.toLegacy =
      legacyRowsForFace db threshold top_n i f := by
  unfold rowsForFace legacyRowsForFace
  rcases hms : matchesFor db threshold top_n f.encoding with - | ⟨m, ms⟩ <;>
    simp only [hms]
  · simp [OutRow.toLegacy, hid]
  · rw [List.map_map]
    apply List.map_congr_left
    intro m' _
    simp [OutRow.toLegacy, Function.comp, hid]

theorem flatMap_rowsForFace_toLegacy (db : Db) (threshold : ℚ) (top_n : Nat)
    (p : BaseRow) (i : Image) (hid : p.id = i.id) :
    ∀ fl : List DetectedFace,
      (fl.flatMap (rowsForFace db threshold top_n p i)).map OutRow.toLegacy =
        fl.flatMap (legacyRowsForFace db threshold top_n i) := by
  intro fl
  induction fl with
  | nil => rfl
  | cons f fs ih =>
    rw [List.flatMap_cons, List.flatMap_cons, List.map_append, ih,
      rowsForFace_toLegacy db threshold top_n p i f hid]

/-- Projecting one paginated image's denormalized rows onto the legacy
column set gives exactly the legacy rows of that image. -/
theorem rowsForImage_toLegacy (db : Db) (threshold : ℚ) (top_n : Nat)
    (p : BaseRow) (i : Image) (hid : p.id = i.id) :
    (rowsForImage db threshold top_n p i).map OutRow.toLegacy =
      legacyRowsForImage db threshold top_n i := by
  unfold rowsForImage legacyRowsForImage
  rcases hfs : db.faces.filter (fun f => f.image_id == some i.id) with - | ⟨f, fs⟩ <;>
    simp only [hfs]
  · simp [OutRow.toLegacy, hid]
  · exact flatMap_rowsForFace_toLegacy db threshold top_n p i hid (f :: fs)

/-- A row of the full paginated fetch comes from a stored image with a
non-NULL `source_url` (the `displayable` filter, SQL line 190). -/
theorem fullFetch_mem_displayable (db : Db) (req : Request) (p : BaseRow)
    (hp : p ∈ fullFetch db req) :
    ∃ i ∈ db.images, i.id = p.id ∧ i.source_url.isSome = true := by
  have hb : p ∈ base_images db (toParams { req with cursor := none }) :=
    (sortBy_perm _ _).mem_iff.1 hp
  rcases List.mem_map.1 hb with ⟨i, hi, hmk⟩
  have hf := List.mem_filter.1 hi
  have hcond := hf.2
  simp only [Bool.and_eq_true] at hcond
  exact ⟨i, hf.1, by rw [← hmk], hcond.1.1⟩

/-- Conversely, in newest mode with no search filter every displayable
stored image reaches the full fetch (as the base row with NULL person
metrics). -/
theorem mem_fullFetch_newest (db : Db) (req : Request) (i : Image)
    (hperson : req.sort_person_id = none) (hsearch : req.search = none)
    (hi : i ∈ db.images) (hsrc : i.source_url.isSome = true) :
    (⟨i.id, i.created_at, none, none⟩ : BaseRow) ∈ fullFetch db req := by
  apply (sortBy_perm _ _).mem_iff.2
  unfold base_images
  apply List.mem_map.2
  refine ⟨i, List.mem_filter.2 ⟨hi, ?_⟩, ?_⟩
  · simp [hsrc, searchCond, defaultCursorCond, toParams, hsearch]
  · simp [isTaggedCol, minDistanceCol, toParams, hperson]

/-- C10 (amended): in newest mode with no search filter, the row set of the
single full paginated evaluation — the union of all its windows — projected
onto the legacy column set is exactly the legacy function's row set
restricted to images with a non-NULL `source_url`.  (Draining page by page
loses, in addition, the blocks of the boundary images skipped by the cursor
protocol; see the C10 counterexample.) -/
theorem C10_rows_eq_legacy_restricted (db : Db) (req : Request)
    (hperson : req.sort_person_id = none) (hsearch : req.search = none)
    (hnd : (db.images.map (fun i => i.id)).Nodup) (lr : LegacyRow) :
    lr ∈ ((fullFetch db req).flatMap
        (blockOf db req.threshold req.top_n)).map OutRow.toLegacy ↔
      lr ∈ get_all_images_with_person_matches_legacy db req.threshold req.top_n
        ∧ lr.source_url ≠ none := by
  constructor
  · intro hmem
    rcases List.mem_map.1 hmem with ⟨r, hr, rfl⟩
    rcases List.mem_flatMap.1 hr with ⟨p, hpF, hrB⟩
    obtain ⟨i, hi, hid, hsrc⟩ := fullFetch_mem_displayable db req p hpF
    have hfilter : db.images.filter (fun x => x.id == p.id) = [i] := by
      rw [← hid]
      exact filter_eq_single_of_nodup_map (fun x => x.id) db.images i hnd hi
    have hblock : blockOf db req.threshold req.top_n p =
        rowsForImage db req.threshold req.top_n p i := by
      unfold blockOf
      rw [hfilter, List.flatMap_cons, List.flatMap_nil, List.append_nil]
    rw [hblock] at hrB
    have hlr : r.toLegacy ∈ legacyRowsForImage db req.threshold req.top_n i := by
      rw [← rowsForImage_toLegacy db req.threshold req.top_n p i hid.symm]
      exact List.mem_map.2 ⟨r, hrB, rfl⟩
    refine ⟨List.mem_flatMap.2 ⟨i, (sortBy_perm _ _).mem_iff.2 hi, hlr⟩, ?_⟩
    have hfields := legacyRowsForImage_fields db req.threshold req.top_n i _ hlr
    rw [hfields.2]
    exact Option.isSome_iff_ne_none.1 hsrc
  · rintro ⟨hleg, hsrcne⟩
    rcases List.mem_flatMap.1 hleg with ⟨i, hisort, hlr⟩
    have hi : i ∈ db.images := (sortBy_perm _ _).mem_iff.1 hisort
    have hfields := legacyRowsForImage_fields db req.threshold req.top_n i lr hlr
    have hsrc : i.source_url.isSome = true :=
      Option.isSome_iff_ne_none.2 (by rw [← hfields.2]; exact hsrcne)
    have hpF := mem_fullFetch_newest db req i hperson hsearch hi hsrc
    have hfilter : db.images.filter
        (fun x => x.id == (⟨i.id, i.created_at, none, none⟩ : BaseRow).id) = [i] :=
      filter_eq_single_of_nodup_map (fun x => x.id) db.images i hnd hi
    have hblock : blockOf db req.threshold req.top_n
          ⟨i.id, i.created_at, none, none⟩ =
        rowsForImage db req.threshold req.top_n
          ⟨i.id, i.created_at, none, none⟩ i := by
      unfold blockOf
      rw [hfilter, List.flatMap_cons, List.flatMap_nil, List.append_nil]
    have hmap : lr ∈ (rowsForImage db req.threshold req.top_n
        ⟨i.id, i.created_at, none, none⟩ i).map OutRow.toLegacy := by
      rw [rowsForImage_toLegacy db req.threshold req.top_n _ i rfl]
      exact hlr
    rcases List.mem_map.1 hmap with ⟨r, hrRows, hrEq⟩
    exact hrEq ▸ List.mem_map.2 ⟨r,
      List.mem_flatMap.2 ⟨⟨i.id, i.created_at, none, none⟩, hpF,
        hblock ▸ hrRows⟩, rfl⟩

/-- The legacy row of image 2 of `exDb3` (a displayable image with no
faces). -/
def exLegacyRow2 : LegacyRow :=
  { image_id := 2, filename := none, source_url := some "u", width := none,
    height := none, face_id := none, face_encoding := none,
    location_top := none, location_right := none, location_bottom := none,
    location_left := none, assigned_person_id := none,
    matched_person_id := none, matched_person_name := none,
    match_distance := none }

/-- C10 counterexample: draining the paginated function page by page over
`exDb3` with `limit = 1` returns images `[1, 3]` only, so the union of the
drained pages has no row for image 2 — yet the legacy function restricted to
non-NULL `source_url` does contain image 2's row.  The drained union is
therefore a strict subset, not equal as the claim states. -/
theorem C10_counterexample_drain_misses_row :
    (drainPages exDb3 exReq1 4 none).map (fun e => e.id) = [1, 3] ∧
    (exLegacyRow2 ∈ get_all_images_with_person_matches_legacy exDb3
        exReq1.threshold exReq1.top_n ∧ exLegacyRow2.source_url ≠ none) ∧
    ¬ ∃ e ∈ drainPages exDb3 exReq1 4 none, e.id = 2 := by
  decide

/-- Witness for the amended C10 over `exDb3` at the legacy row of image 2:
both sides of the equivalence hold. -/
theorem C10_rows_eq_legacy_restricted_witness :
    exReq1.sort_person_id = none ∧ exReq1.search = none ∧
    (exDb3.images.map (fun i => i.id)).Nodup ∧
    (exLegacyRow2 ∈ ((fullFetch exDb3 exReq1).flatMap
        (blockOf exDb3 exReq1.threshold exReq1.top_n)).map OutRow.toLegacy ↔
      exLegacyRow2 ∈ get_all_images_with_person_matches_legacy exDb3
          exReq1.threshold exReq1.top_n ∧
        exLegacyRow2.source_url ≠ none) :=
  ⟨rfl, rfl, by decide,
    C10_rows_eq_legacy_restricted exDb3 exReq1 rfl rfl (by decide) exLegacyRow2⟩
